import Mathlib

/-!
Shallow embedding of `azure_health_pdf_extractor.py`: the chunking routine
`chunk_text`, the regex-based fallback extractor `extract_rule_based`, the
Azure entity/relation merge engine inside `analyze_with_azure`, the batching
adapter, and the strategy coordinator `extract_health_from_text`, together
with theorems settling the specification claims C1 to C10.

Modelling conventions:
- Python strings are `List Char` (`PyStr`); concrete inputs are written as
  Lean string literals converted with `String.data`.
- Python `re` patterns are terms of a small backtracking regex engine (`RE`,
  `reMatch`) whose candidate lists follow the backtracking priority order of
  CPython's `re` module (greedy quantifiers try the longest repetition
  first, ordered alternation tries the left branch first, optional groups
  try the present branch first); `finditer` scans left to right and resumes
  after the previous match, as `re.finditer` does.
- Python dicts are insertion-ordered association lists: updating an existing
  key keeps its position, inserting a fresh key appends at the end.
- Opaque service payloads (confidence scores and assertion attributes) are a
  type parameter `Val`; the code only stores them, never inspects them.
- Loops whose bound is data dependent take an explicit fuel argument; the
  wrappers pass fuel that provably suffices whenever the Python loop
  terminates, and `none` models divergence of the Python loop.
-/

namespace AzureHealth

/-- Python strings, modelled as lists of characters. -/
abbrev PyStr := List Char

/-- Python `str.isspace` / `\s` for the ASCII whitespace characters. -/
def pyIsSpace (c : Char) : Bool :=
  c == ' ' || c == '\t' || c == '\n' || c == '\r' || c == '\x0b' || c == '\x0c'

/-- Python `str.lower` (ASCII). -/
def pyLower (s : PyStr) : PyStr := s.map Char.toLower

/-- Python `str.upper` (ASCII). -/
def pyUpper (s : PyStr) : PyStr := s.map Char.toUpper

/-- Python `str.strip()` with no argument: remove leading and trailing whitespace. -/
def pyStrip (s : PyStr) : PyStr :=
  ((s.dropWhile pyIsSpace).reverse.dropWhile pyIsSpace).reverse

/-- Python `str.strip(chars)`: remove leading and trailing characters from `cs`. -/
def pyStripChars (cs : List Char) (s : PyStr) : PyStr :=
  ((s.dropWhile (cs.contains ·)).reverse.dropWhile (cs.contains ·)).reverse

/-- Truthiness of a Python string: nonempty. -/
def pyTruthyStr (s : PyStr) : Bool := !s.isEmpty

/-- Truthiness of a Python `Optional[str]`: present and nonempty. -/
def pyTruthyOpt : Option PyStr → Bool
  | some s => !s.isEmpty
  | none => false

/-- Python `a or b` on optional strings: `a` if truthy, else `b`. -/
def pyOrOpt (a b : Option PyStr) : Option PyStr := if pyTruthyOpt a then a else b

/-- Python `x or None` on an optional string. -/
def pyOrNone (a : Option PyStr) : Option PyStr := if pyTruthyOpt a then a else none

/-- Does `needle` occur at the start of `hay`? (helper for substring tests) -/
def listStartsWith : PyStr → PyStr → Bool
  | [], _ => true
  | _ :: _, [] => false
  | a :: as, b :: bs => a == b && listStartsWith as bs

/-- Python `needle in hay` substring containment. -/
def hasSub (needle : PyStr) : PyStr → Bool
  | [] => needle.isEmpty
  | c :: rest => listStartsWith needle (c :: rest) || hasSub needle rest

/-- Python slice `text[s:e]` (for `0 ≤ s ≤ e`). -/
def sliceL (text : PyStr) (s e : Nat) : PyStr := (text.drop s).take (e - s)

section Dict

variable {κ β : Type} [DecidableEq κ]

/-- Lookup in an insertion-ordered dict (Python `d.get(k)`). -/
def dictFind : List (κ × β) → κ → Option β
  | [], _ => none
  | kv :: rest, k => if kv.1 = k then some kv.2 else dictFind rest k

/-- Python `d[k] = v`: update in place if the key exists, else append. -/
def dictInsert : List (κ × β) → κ → β → List (κ × β)
  | [], k, v => [(k, v)]
  | kv :: rest, k, v => if kv.1 = k then (k, v) :: rest else kv :: dictInsert rest k v

/-- Python `d.setdefault(k, v)`: keep an existing binding, else append `v`. -/
def dictSetdefault : List (κ × β) → κ → β → List (κ × β)
  | [], k, v => [(k, v)]
  | kv :: rest, k, v => if kv.1 = k then kv :: rest else kv :: dictSetdefault rest k v

/-- Python `k in d` key membership. -/
def dictHasKey : List (κ × β) → κ → Bool
  | [], _ => false
  | kv :: rest, k => if kv.1 = k then true else dictHasKey rest k

/-- Number of entries carrying key `k`. -/
def countKey (d : List (κ × β)) (k : κ) : Nat :=
  (d.filter (fun kv => decide (kv.1 = k))).length

end Dict

/-! ## A small backtracking regex engine

Each Python pattern used by the fallback extractor is transcribed into an
`RE` term below.  `reMatch r text pos caps` returns every way `r` can match
at absolute position `pos`, as a list of `(end position, captures)` pairs in
CPython backtracking priority order; the engine's overall match is the head
of that list.  Quantifiers (`*`, `+`, `{n,}`) only ever apply to single
character classes in the source patterns, which `reps` captures directly:
the greedy candidate list runs from the longest repetition down to the
shortest allowed. -/

/-- Named-group captures: latest capture first. -/
abbrev Caps := List (PyStr × PyStr)

/-- Value of group `k` (`m.groupdict().get(k)`): `none` when the group did not
participate in the match. -/
def capGet (caps : Caps) (k : PyStr) : Option PyStr := dictFind caps k

/-- Regex abstract syntax: exactly the constructs appearing in the source
patterns. `lit` is a case-sensitive literal, `litic` a case-insensitive one
(the `re.IGNORECASE` patterns); `reps p lo` is a greedy `p{lo,}`; `bol` is
`^` under `re.MULTILINE`; `wordB` is `\b`. -/
inductive RE where
  | cls (p : Char → Bool)
  | reps (p : Char → Bool) (lo : Nat)
  | lit (s : PyStr)
  | litic (s : PyStr)
  | seq (a b : RE)
  | alt (a b : RE)
  | opt (a : RE)
  | grp (name : PyStr) (a : RE)
  | bol
  | wordB

/-- Length of the maximal run of characters satisfying `p` starting at `pos`. -/
def countWhile (p : Char → Bool) (text : PyStr) (pos : Nat) : Nat :=
  ((text.drop pos).takeWhile p).length

/-- Case-sensitive literal test at `pos`. -/
def strAt (s : PyStr) (text : PyStr) (pos : Nat) : Bool :=
  (text.drop pos).take s.length == s

/-- Case-insensitive literal test at `pos` (ASCII case folding, as the
`re.IGNORECASE` patterns here only involve ASCII). -/
def strAtIC (s : PyStr) (text : PyStr) (pos : Nat) : Bool :=
  ((text.drop pos).take s.length).map Char.toLower == s.map Char.toLower

/-- Word character for `\b` (`[A-Za-z0-9_]`). -/
def isWordC (c : Char) : Bool :=
  ('A' ≤ c && c ≤ 'Z') || ('a' ≤ c && c ≤ 'z') || ('0' ≤ c && c ≤ '9') || c == '_'

/-- Is the position boundary-adjacent to a word character on the given side? -/
def isWordAt (text : PyStr) : Option Nat → Bool
  | some i => match text.get? i with
    | some c => isWordC c
    | none => false
  | none => false

/-- All matches of `r` in `text` at `pos`, as `(endPos, captures)` in
backtracking priority order. -/
def reMatch : RE → PyStr → Nat → Caps → List (Nat × Caps)
  | .cls p, text, pos, caps =>
    match text.get? pos with
    | some c => if p c then [(pos + 1, caps)] else []
    | none => []
  | .reps p lo, text, pos, caps =>
    let k := countWhile p text pos
    if k < lo then []
    else (List.range (k + 1 - lo)).map (fun i => (pos + k - i, caps))
  | .lit s, text, pos, caps =>
    if strAt s text pos then [(pos + s.length, caps)] else []
  | .litic s, text, pos, caps =>
    if strAtIC s text pos then [(pos + s.length, caps)] else []
  | .seq a b, text, pos, caps =>
    (reMatch a text pos caps).flatMap (fun pc => reMatch b text pc.1 pc.2)
  | .alt a b, text, pos, caps =>
    reMatch a text pos caps ++ reMatch b text pos caps
  | .opt a, text, pos, caps =>
    reMatch a text pos caps ++ [(pos, caps)]
  | .grp n a, text, pos, caps =>
    (reMatch a text pos caps).map (fun pc => (pc.1, (n, sliceL text pos pc.1) :: pc.2))
  | .bol, text, pos, caps =>
    if pos == 0 || (pos ≠ 0 && text.get? (pos - 1) == some '\n') then [(pos, caps)] else []
  | .wordB, text, pos, caps =>
    let left := isWordAt text (if pos == 0 then none else some (pos - 1))
    let right := isWordAt text (some pos)
    if left != right then [(pos, caps)] else []

/-- The engine's match attempt at one position (`re` returns the first
candidate in backtracking order). -/
def reFirst (r : RE) (text : PyStr) (pos : Nat) : Option (Nat × Caps) :=
  (reMatch r text pos []).head?

/-- `re.finditer` scanning loop: try each position left to right, resume
after the previous match (advancing by one on an empty match).  Fuel-driven;
`finditer` passes enough fuel for the whole scan. -/
def finditerAux (r : RE) (text : PyStr) : Nat → Nat → List (Nat × Nat × Caps)
  | 0, _ => []
  | fuel + 1, pos =>
    if pos ≤ text.length then
      match reFirst r text pos with
      | some (e, caps) => (pos, e, caps) :: finditerAux r text fuel (max e (pos + 1))
      | none => finditerAux r text fuel (pos + 1)
    else []

/-- `re.finditer(r, text)`: list of `(start, end, captures)`. -/
def finditer (r : RE) (text : PyStr) : List (Nat × Nat × Caps) :=
  finditerAux r text (text.length + 1) 0

/-- Cut `text` at the spans of the given matches (helper for `reSplit`). -/
def reSplitGo (text : PyStr) : Nat → List (Nat × Nat × Caps) → List PyStr
  | pos, [] => [sliceL text pos text.length]
  | pos, (s, e, _) :: rest => sliceL text pos s :: reSplitGo text e rest

/-- `re.split(r, text)` for the group-free patterns used in the source. -/
def reSplit (r : RE) (text : PyStr) : List PyStr :=
  reSplitGo text 0 (finditer r text)

/-- Single-group name used to transcribe unnamed group 1. -/
def g1K : PyStr := "1".data

/-- `re.findall(r, text)` for a pattern with exactly one group. -/
def findall1 (r : RE) (text : PyStr) : List PyStr :=
  (finditer r text).map (fun m => (capGet m.2.2 g1K).getD [])

/-! ## `chunk_text`

Transcribes:
```
def chunk_text(text, max_chars=120_000):
    if len(text) <= max_chars:
        return [text]
    chunks = []; start = 0
    while start < len(text):
        end = min(start + max_chars, len(text))
        nl = text.rfind("\n", start, end)
        if nl == -1 or nl <= start + 1000:
            nl = end
        chunks.append(text[start:nl])
        start = nl
    return chunks
```
The loop is fuel-driven because it genuinely diverges for `max_chars = 0`
on nonempty text (the split position does not advance); `chunk_text` passes
fuel `len(text) + 1`, which suffices whenever `max_chars ≥ 1`, and `none`
models a Python loop that never returns. -/

/-- Python `text.rfind("\n", s, e)`: index of the last newline in `[s, e)`,
searched from the top; `none` models the `-1` result. -/
def rfindNlAux (text : PyStr) (s : Nat) : Nat → Option Nat
  | 0 => none
  | j + 1 => if s ≤ j && text.get? j == some '\n' then some j else rfindNlAux text s j

/-- Python `text.rfind("\n", s, e)`. -/
def rfindNl (text : PyStr) (s e : Nat) : Option Nat := rfindNlAux text s e

/-- The `nl = -1 or nl <= start + 1000` adjustment of the loop body:
fall back to `end` unless a newline strictly beyond `start + 1000` was
found. -/
def nlChoice (e start : Nat) : Option Nat → Nat
  | none => e
  | some i => if i ≤ start + 1000 then e else i

/-- One iteration of the `chunk_text` loop: the split position `nl` chosen
for the chunk starting at `start` (`end = min(start + max_chars, len(text))`). -/
def nextNl (text : PyStr) (maxChars start : Nat) : Nat :=
  nlChoice (min (start + maxChars) text.length) start
    (rfindNl text start (min (start + maxChars) text.length))

/-- The `chunk_text` while loop, fuel-driven (the loop body appends
`text[start:nl]` and continues from `nl = nextNl text maxChars start`). -/
def chunkAux (text : PyStr) (maxChars : Nat) : Nat → Nat → Option (List PyStr)
  | 0, _ => none
  | fuel + 1, start =>
    if start < text.length then
      match chunkAux text maxChars fuel (nextNl text maxChars start) with
      | none => none
      | some rest => some (sliceL text start (nextNl text maxChars start) :: rest)
    else some []

/-- `chunk_text(text, max_chars)`. -/
def chunk_text (text : PyStr) (maxChars : Nat) : Option (List PyStr) :=
  if text.length ≤ maxChars then some [text]
  else chunkAux text maxChars (text.length + 1) 0

/-- Divergence of the `chunk_text` loop: no amount of fuel makes it return. -/
def chunkDiverges (text : PyStr) (maxChars : Nat) : Prop :=
  ∀ fuel, chunkAux text maxChars fuel 0 = none

/-! ## Record shapes (the four dataclasses) -/

/-- Provenance tag `"azure"`. -/
def azureTag : PyStr := "azure".data

/-- Provenance tag `"rule_based"`. -/
def ruleTag : PyStr := "rule_based".data

/-- Dataclass `Medication`. `Val` stands for the opaque confidence / assertion
payloads the code stores but never inspects. -/
structure Medication (Val : Type) where
  name : PyStr
  normalized : Option PyStr := none
  dosage : Option PyStr := none
  frequency : Option PyStr := none
  route : Option PyStr := none
  form : Option PyStr := none
  confidence : Option Val := none
  assertion : Option Val := none
  source : PyStr := azureTag
  deriving DecidableEq

/-- Dataclass `Diagnosis`. -/
structure Diagnosis (Val : Type) where
  text : PyStr
  normalized : Option PyStr := none
  confidence : Option Val := none
  assertion : Option Val := none
  source : PyStr := azureTag
  deriving DecidableEq

/-- Dataclass `Symptom`. -/
structure Symptom (Val : Type) where
  text : PyStr
  normalized : Option PyStr := none
  confidence : Option Val := none
  assertion : Option Val := none
  source : PyStr := azureTag
  deriving DecidableEq

/-- Dataclass `Lab`. -/
structure Lab (Val : Type) where
  name : PyStr
  value : Option PyStr := none
  unit : Option PyStr := none
  operator : Option PyStr := none
  confidence : Option Val := none
  source : PyStr := azureTag
  deriving DecidableEq

/-- The output envelope: the dict literal with exactly the five keys
`source`, `diagnoses`, `medications`, `symptoms`, `labs` returned by both
strategies, one structure field per key. -/
structure Envelope (Val : Type) where
  source : PyStr
  diagnoses : List (Diagnosis Val)
  medications : List (Medication Val)
  symptoms : List (Symptom Val)
  labs : List (Lab Val)
  deriving DecidableEq

/-! ## Rule-based fallback extractor

Transcription of `extract_rule_based` and the module-level patterns
`MED_DOSE`, `MED_FREQ`, `MED_ROUTE`, `LAB_UNIT`, `DIAG_WORDS`,
`SYMPTOM_TRIGGERS`.  All compiled patterns carry `re.IGNORECASE` (hence
`litic`); `med_line_re` additionally carries `re.MULTILINE` (hence `bol`);
the two `re.split` patterns are compiled without flags (hence `lit`). -/

/-- Character class `\d`. -/
def isDigitC (c : Char) : Bool := '0' ≤ c && c ≤ '9'

/-- ASCII letter: `[A-Z]` under `re.IGNORECASE`, and `[A-Za-z]`. -/
def isAsciiAlphaC (c : Char) : Bool := ('A' ≤ c && c ≤ 'Z') || ('a' ≤ c && c ≤ 'z')

/-- Character class `[A-Za-z0-9\- ]` of the medication name group. -/
def isMedNameC (c : Char) : Bool := isAsciiAlphaC c || isDigitC c || c == '-' || c == ' '

/-- Character class of the lab name group: ASCII letters, digits, hyphen,
slash and space. -/
def isLabNameC (c : Char) : Bool :=
  isAsciiAlphaC c || isDigitC c || c == '-' || c == '/' || c == ' '

/-- Ordered alternation of case-insensitive literals. -/
def altLitsIC : String → List String → RE
  | s, [] => .litic s.data
  | s, t :: rest => .alt (.litic s.data) (altLitsIC t rest)

/-- Group names used by the source patterns. -/
def nameK : PyStr := "name".data

/-- Group name `dose`. -/
def doseK : PyStr := "dose".data

/-- Group name `freq`. -/
def freqK : PyStr := "freq".data

/-- Group name `route`. -/
def routeK : PyStr := "route".data

/-- Group name `value`. -/
def valueK : PyStr := "value".data

/-- Group name `unit`. -/
def unitK : PyStr := "unit".data

/-- `MED_DOSE = (?P<dose>\d+(?:\.\d+)?\s*(?:mg|mcg|g|iu|units|ml))`. -/
def MED_DOSE : RE :=
  .grp doseK (.seq (.reps isDigitC 1)
    (.seq (.opt (.seq (.cls (fun c => c == '.')) (.reps isDigitC 1)))
      (.seq (.reps pyIsSpace 0) (altLitsIC "mg" ["mcg", "g", "iu", "units", "ml"]))))

/-- `q\d+h` branch of `MED_FREQ`. -/
def qNh : RE := .seq (.litic "q".data) (.seq (.reps isDigitC 1) (.litic "h".data))

/-- `q\d{1,2}h` branch of `MED_FREQ`. -/
def q12h : RE :=
  .seq (.litic "q".data) (.seq (.cls isDigitC) (.seq (.opt (.cls isDigitC)) (.litic "h".data)))

/-- `MED_FREQ = (?P<freq>once daily|twice daily|daily|bid|tid|qid|q\d+h|q\d{1,2}h)`. -/
def MED_FREQ : RE :=
  .grp freqK (.alt (.litic "once daily".data) (.alt (.litic "twice daily".data)
    (.alt (.litic "daily".data) (.alt (.litic "bid".data) (.alt (.litic "tid".data)
      (.alt (.litic "qid".data) (.alt qNh q12h)))))))

/-- `MED_ROUTE = (?P<route>po|iv|im|sc|sl|topical|inhaled|pr)`. -/
def MED_ROUTE : RE :=
  .grp routeK (altLitsIC "po" ["iv", "im", "sc", "sl", "topical", "inhaled", "pr"])

/-- `med_line_re = ^(?P<name>[A-Z][A-Za-z0-9\- ]{2,})\s+(?:MED_DOSE)?(?:\s+MED_ROUTE)?(?:\s+MED_FREQ)?`
with `re.IGNORECASE | re.MULTILINE`. -/
def med_line_re : RE :=
  .seq .bol (.seq (.grp nameK (.seq (.cls isAsciiAlphaC) (.reps isMedNameC 2)))
    (.seq (.reps pyIsSpace 1)
      (.seq (.opt MED_DOSE)
        (.seq (.opt (.seq (.reps pyIsSpace 1) MED_ROUTE))
          (.opt (.seq (.reps pyIsSpace 1) MED_FREQ))))))

/-- Header capture pattern `{header}\s*:\s*(.+)` (with `re.IGNORECASE`). -/
def headerRe (h : String) : RE :=
  .seq (.litic h.data) (.seq (.reps pyIsSpace 0) (.seq (.cls (fun c => c == ':'))
    (.seq (.reps pyIsSpace 0) (.grp g1K (.reps (fun c => !(c == '\n')) 1)))))

/-- Seed-word pattern `\b{re.escape(w)}\b` (with `re.IGNORECASE`). -/
def diagWordRe (w : String) : RE := .seq .wordB (.seq (.litic w.data) .wordB)

/-- Trigger pattern `{trig}\s+([^\.;\n]+)` (with `re.IGNORECASE`). -/
def trigRe (t : String) : RE :=
  .seq (.litic t.data) (.seq (.reps pyIsSpace 1)
    (.grp g1K (.reps (fun c => !(c == '.' || c == ';' || c == '\n')) 1)))

/-- Split pattern `[,;\n]` (no flags). -/
def commaSemiNlRe : RE := .cls (fun c => c == ',' || c == ';' || c == '\n')

/-- Split pattern `,|and|/` (no flags, case-sensitive). -/
def sympSplitRe : RE := .alt (.lit ",".data) (.alt (.lit "and".data) (.lit "/".data))

/-- `LAB_UNIT` alternation (the `\^` escapes denote literal carets). -/
def labUnitRe : RE :=
  .grp unitK (altLitsIC "%" ["mg/dL", "mmol/L", "g/L", "g/dL", "U/L", "IU/L", "ng/mL",
    "pg/mL", "mEq/L", "mmHg", "bpm", "°C", "10^9/L", "x10^9/L", "k/µL"])

/-- The `lab_re` pattern (with `re.IGNORECASE`): a name group (ASCII letter
followed by two or more name-class characters), `\s*[:=]\s*`, a signed
decimal `value` group `[-+]?\d+(?:\.\d+)?`, then `\s*` and an optional
`unit` group drawn from `LAB_UNIT`. -/
def lab_re : RE :=
  .seq (.grp nameK (.seq (.cls isAsciiAlphaC) (.reps isLabNameC 2)))
    (.seq (.reps pyIsSpace 0) (.seq (.cls (fun c => c == ':' || c == '='))
      (.seq (.reps pyIsSpace 0)
        (.seq (.grp valueK (.seq (.opt (.cls (fun c => c == '-' || c == '+')))
          (.seq (.reps isDigitC 1) (.opt (.seq (.cls (fun c => c == '.')) (.reps isDigitC 1))))))
          (.seq (.reps pyIsSpace 0) (.opt labUnitRe))))))

/-- `DIAG_WORDS`. -/
def DIAG_WORDS : List String :=
  ["diabetes", "hypertension", "pneumonia", "asthma", "copd", "migraine", "anemia", "covid-19"]

/-- `SYMPTOM_TRIGGERS`. -/
def SYMPTOM_TRIGGERS : List String :=
  ["complains of", "reports", "presents with", "symptoms include", "c/o", "denies"]

/-- The characters of `.strip(".- ")`. -/
def stripSet : List Char := ['.', '-', ' ']

/-- `name = m.group("name").strip()` of the medication loop. -/
def ruleMatchName (caps : Caps) : PyStr := pyStrip ((capGet caps nameK).getD [])

/-- `entry = meds.get(name) or Medication(name=name, source="rule_based")`
(a dataclass instance is always truthy, so this is a lookup with default). -/
def ruleMedEntry (Val : Type) (meds : List (PyStr × Medication Val)) (caps : Caps) :
    Medication Val :=
  match dictFind meds (ruleMatchName caps) with
  | some e => e
  | none => { name := ruleMatchName caps, source := ruleTag }

/-- The three field updates of the medication loop body (each field update
reads only its own field, so the three sequential assignments amount to one
simultaneous record update):
```
entry.dosage = entry.dosage or (m.groupdict().get("dose") or None)
entry.frequency = entry.frequency or (m.groupdict().get("freq") or None)
entry.route = entry.route or (m.groupdict().get("route") or None)
``` -/
def ruleMedUpdate (Val : Type) (caps : Caps) (e : Medication Val) : Medication Val :=
  { e with dosage := pyOrOpt e.dosage (pyOrNone (capGet caps doseK))
           frequency := pyOrOpt e.frequency (pyOrNone (capGet caps freqK))
           route := pyOrOpt e.route (pyOrNone (capGet caps routeK)) }

def ruleMedStep (Val : Type) (meds : List (PyStr × Medication Val)) (caps : Caps) :
    List (PyStr × Medication Val) :=
  dictInsert meds (ruleMatchName caps) (ruleMedUpdate Val caps (ruleMedEntry Val meds caps))

/-- The medication loop over a list of match captures. -/
def ruleMedsFold (Val : Type) (ms : List Caps) : List (PyStr × Medication Val) :=
  ms.foldl (ruleMedStep Val) []

/-- The medication dict built by `extract_rule_based`. -/
def ruleMeds (Val : Type) (text : PyStr) : List (PyStr × Medication Val) :=
  ruleMedsFold Val ((finditer med_line_re text).map (fun m => m.2.2))

/-- Insert one candidate diagnosis phrase (`w`) if its lower-cased key is new:
```
w = piece.strip().strip(".- ")
if not w: continue
key = w.lower()
if key not in diagnoses: diagnoses[key] = Diagnosis(text=w, source="rule_based")
``` -/
def ruleDiagInsert (Val : Type) (d : List (PyStr × Diagnosis Val)) (piece : PyStr) :
    List (PyStr × Diagnosis Val) :=
  let w := pyStripChars stripSet (pyStrip piece)
  if w.isEmpty then d
  else
    let key := pyLower w
    if dictHasKey d key then d else d ++ [(key, { text := w, source := ruleTag })]

/-- The header loop of the diagnosis section. -/
def ruleDiagHeaders (Val : Type) (text : PyStr) (d0 : List (PyStr × Diagnosis Val)) :
    List (PyStr × Diagnosis Val) :=
  ["diagnosis", "diagnoses", "assessment", "impression"].foldl (fun d h =>
    (findall1 (headerRe h) text).foldl (fun d s =>
      (reSplit commaSemiNlRe s).foldl (ruleDiagInsert Val) d) d) d0

/-- The seed-word loop of the diagnosis section (`text=w` stores the
dictionary word itself, not the matched span). -/
def ruleDiagWords (Val : Type) (text : PyStr) (d0 : List (PyStr × Diagnosis Val)) :
    List (PyStr × Diagnosis Val) :=
  DIAG_WORDS.foldl (fun d w =>
    (finditer (diagWordRe w) text).foldl (fun d _m =>
      let key := pyLower w.data
      if dictHasKey d key then d
      else d ++ [(key, { text := w.data, source := ruleTag })]) d) d0

/-- The diagnosis dict built by `extract_rule_based`. -/
def ruleDiags (Val : Type) (text : PyStr) : List (PyStr × Diagnosis Val) :=
  ruleDiagWords Val text (ruleDiagHeaders Val text [])

/-- The symptom list built by `extract_rule_based` (no deduplication). -/
def ruleSymptoms (Val : Type) (text : PyStr) : List (Symptom Val) :=
  SYMPTOM_TRIGGERS.foldl (fun syms trig =>
    (finditer (trigRe trig) text).foldl (fun syms m =>
      let phrase := (capGet m.2.2 g1K).getD []
      (reSplit sympSplitRe phrase).foldl (fun syms s =>
        let cand := pyStripChars stripSet (pyStrip s)
        if cand.isEmpty then syms
        else syms ++ [{ text := cand, source := ruleTag }]) syms) syms) []

/-- The lab list built by `extract_rule_based` (every match appended). -/
def ruleLabs (Val : Type) (text : PyStr) : List (Lab Val) :=
  (finditer lab_re text).foldl (fun labs m =>
    labs ++ [{ name := pyStrip ((capGet m.2.2 nameK).getD [])
               value := capGet m.2.2 valueK
               unit := pyOrNone (capGet m.2.2 unitK)
               source := ruleTag }]) []

/-- `extract_rule_based(text)`. -/
def extract_rule_based (Val : Type) (text : PyStr) : Envelope Val :=
  { source := ruleTag
    diagnoses := (ruleDiags Val text).map (·.2)
    medications := (ruleMeds Val text).map (·.2)
    symptoms := ruleSymptoms Val text
    labs := ruleLabs Val text }

/-! ## Azure adapter: entity/relation merge, batching, coordinator

The remote service is an oracle `AzureSvc`: a function from a submitted
payload (the `(id, text)` documents of one batch; the constant
`"language": "en"` field is omitted) to either a transport/auth failure
(`Except.error`, modelling a raised `HttpResponseError`, re-raised by the
adapter as `RuntimeError`) or the list of per-document results.  `Val` is
the opaque payload type for confidence scores and assertion attributes. -/

/-- Deduplication identity `entity_key(e) = (e.text, e.category, e.offset)`. -/
abbrev EntityKey := PyStr × PyStr × Nat

/-- A healthcare entity as exposed by a document result (the SDK always
carries `text`, `category` and `offset`; `normalized_text`,
`confidence_score` and `assertion` may be absent). -/
structure HEntity (Val : Type) where
  text : PyStr
  category : PyStr
  offset : Nat
  normalized_text : Option PyStr := none
  confidence_score : Option Val := none
  assertion : Option Val := none
  deriving DecidableEq

/-- `entity_key(e)`. -/
def entity_key (Val : Type) (e : HEntity Val) : EntityKey := (e.text, e.category, e.offset)

/-- `normalize_assertion` copies whichever of the four assertion attributes
exist into a dict.  The assertion payload is opaque to every claim, so it is
modelled as the identity on the optional payload (`None` stays `None`). -/
def normalize_assertion (Val : Type) (a : Option Val) : Option Val := a

/-- One role of an entity relation. -/
structure HRole (Val : Type) where
  name : PyStr
  entity : HEntity Val
  deriving DecidableEq

/-- An entity relation: a list of roles. -/
structure HRelation (Val : Type) where
  roles : List (HRole Val)
  deriving DecidableEq

/-- One per-document result of a batch call. -/
structure DocResult (Val : Type) where
  is_error : Bool := false
  entities : List (HEntity Val) := []
  entity_relations : List (HRelation Val) := []
  deriving DecidableEq

/-- The four deduplication maps built by `analyze_with_azure` (Python dicts
keyed by `entity_key`). -/
structure AzState (Val : Type) where
  diagnoses : List (EntityKey × Diagnosis Val) := []
  symptoms : List (EntityKey × Symptom Val) := []
  meds : List (EntityKey × Medication Val) := []
  labs : List (EntityKey × Lab Val) := []
  deriving DecidableEq

/-- `Diagnosis(text=ent.text, normalized=norm, confidence=conf, assertion=assertion)`. -/
def mkAzDiagnosis (Val : Type) (e : HEntity Val) : Diagnosis Val :=
  { text := e.text, normalized := e.normalized_text, confidence := e.confidence_score,
    assertion := normalize_assertion Val e.assertion }

/-- `Symptom(text=ent.text, normalized=norm, confidence=conf, assertion=assertion)`. -/
def mkAzSymptom (Val : Type) (e : HEntity Val) : Symptom Val :=
  { text := e.text, normalized := e.normalized_text, confidence := e.confidence_score,
    assertion := normalize_assertion Val e.assertion }

/-- `Medication(name=ent.text, normalized=norm, confidence=conf, assertion=assertion)`. -/
def mkAzMedication (Val : Type) (e : HEntity Val) : Medication Val :=
  { name := e.text, normalized := e.normalized_text, confidence := e.confidence_score,
    assertion := normalize_assertion Val e.assertion }

/-- `Lab(name=ent.text, confidence=conf)`. -/
def mkAzLab (Val : Type) (e : HEntity Val) : Lab Val :=
  { name := e.text, confidence := e.confidence_score }

/-- Category `"DIAGNOSIS"`. -/
def catDiagnosis : PyStr := "DIAGNOSIS".data

/-- Category `"SYMPTOM_OR_SIGN"`. -/
def catSymptom : PyStr := "SYMPTOM_OR_SIGN".data

/-- Category `"MEDICATION_NAME"`. -/
def catMedication : PyStr := "MEDICATION_NAME".data

/-- Category `"EXAMINATION_NAME"`. -/
def catExamination : PyStr := "EXAMINATION_NAME".data

/-- First pass of `analyze_with_azure` for one entity: upper-case the
category, then overwrite (`diagnoses[ek] = ...`, `symptoms[ek] = ...`) or
keep-first (`meds.setdefault`, `labs.setdefault`). -/
def entStep (Val : Type) (st : AzState Val) (ent : HEntity Val) : AzState Val :=
  if pyUpper ent.category = catDiagnosis then
    { st with diagnoses := dictInsert st.diagnoses (entity_key Val ent) (mkAzDiagnosis Val ent) }
  else if pyUpper ent.category = catSymptom then
    { st with symptoms := dictInsert st.symptoms (entity_key Val ent) (mkAzSymptom Val ent) }
  else if pyUpper ent.category = catMedication then
    { st with meds := dictSetdefault st.meds (entity_key Val ent) (mkAzMedication Val ent) }
  else if pyUpper ent.category = catExamination then
    { st with labs := dictSetdefault st.labs (entity_key Val ent) (mkAzLab Val ent) }
  else st

/-- `roles = {getattr(r, "name", "").upper(): r.entity for r in rel.roles}`:
a dict comprehension, so later duplicate keys overwrite the value but keep
first-insertion order. -/
def buildRoles (Val : Type) (rs : List (HRole Val)) : List (PyStr × HEntity Val) :=
  rs.foldl (fun d r => dictInsert d (pyUpper r.name) r.entity) []

/-- Python `a or b` on optional entities (an SDK entity object is always
truthy). -/
def pyOrEnt (Val : Type) (a b : Option (HEntity Val)) : Option (HEntity Val) :=
  match a with
  | some e => some e
  | none => b

/-- Role key `"DOSAGE"`. -/
def roleDOSAGE : PyStr := "DOSAGE".data

/-- Role key `"FREQUENCY"`. -/
def roleFREQUENCY : PyStr := "FREQUENCY".data

/-- Role key `"ROUTE"`. -/
def roleROUTE : PyStr := "ROUTE".data

/-- Role key `"ROUTEOFADMINISTRATION"`. -/
def roleROA : PyStr := "ROUTEOFADMINISTRATION".data

/-- Role key `"ROUTE_OF_ADMINISTRATION"`. -/
def roleROA2 : PyStr := "ROUTE_OF_ADMINISTRATION".data

/-- Role key `"FORM"`. -/
def roleFORM : PyStr := "FORM".data

/-- Role key `"MEDICATION_FORM"`. -/
def roleMEDFORM : PyStr := "MEDICATION_FORM".data

/-- Role key `"MEASUREMENT_VALUE"`. -/
def roleMVALUE : PyStr := "MEASUREMENT_VALUE".data

/-- Role key `"MEASUREMENT_UNIT"`. -/
def roleMUNIT : PyStr := "MEASUREMENT_UNIT".data

/-- Role key `"RELATIONAL_OPERATOR"`. -/
def roleROP : PyStr := "RELATIONAL_OPERATOR".data

/-- Anchor needle `"MEDICATION"` (substring test over role keys). -/
def medNeedle : PyStr := "MEDICATION".data

/-- Anchor needle `"EXAMINATION"`. -/
def examNeedle : PyStr := "EXAMINATION".data

/-- The medication field updates of the relation pass: each present role
unconditionally overwrites the mapped field
(`m.dosage = roles["DOSAGE"].text`, ...).  The source's sequential
assignments touch pairwise distinct fields except for `route`, where the
`ROUTEOFADMINISTRATION`/`ROUTE_OF_ADMINISTRATION` branch runs after (and so
overrides) the `ROUTE` branch; `FORM` takes precedence over
`MEDICATION_FORM` inside `roles.get("FORM") or roles.get("MEDICATION_FORM")`.
The composition of the five assignments is written as one simultaneous
record update. -/
def applyMedRoles (Val : Type) (roles : List (PyStr × HEntity Val)) (m : Medication Val) :
    Medication Val :=
  { m with
    dosage := match dictFind roles roleDOSAGE with
      | some e => some e.text
      | none => m.dosage
    frequency := match dictFind roles roleFREQUENCY with
      | some e => some e.text
      | none => m.frequency
    route := match pyOrEnt Val (dictFind roles roleROA) (dictFind roles roleROA2) with
      | some e => some e.text
      | none =>
        match dictFind roles roleROUTE with
        | some e => some e.text
        | none => m.route
    form := match pyOrEnt Val (dictFind roles roleFORM) (dictFind roles roleMEDFORM) with
      | some e => some e.text
      | none => m.form }

/-- The lab field updates of the relation pass (three assignments to
pairwise distinct fields, written as one simultaneous record update). -/
def applyLabRoles (Val : Type) (roles : List (PyStr × HEntity Val)) (lab : Lab Val) :
    Lab Val :=
  { lab with
    value := match dictFind roles roleMVALUE with
      | some e => some e.text
      | none => lab.value
    unit := match dictFind roles roleMUNIT with
      | some e => some e.text
      | none => lab.unit
    operator := match dictFind roles roleROP with
      | some e => some e.text
      | none => lab.operator }

/-- The fresh record `Medication(name=med_ent.text, normalized=med_ent.normalized_text)`
built when a relation references a medication absent from the map
(`source` defaults to `"azure"`). -/
def relFreshMed (Val : Type) (e : HEntity Val) : Medication Val :=
  { name := e.text, normalized := e.normalized_text }

/-- The fresh record `Lab(name=exam_ent.text)` of the lab relation branch. -/
def relFreshLab (Val : Type) (e : HEntity Val) : Lab Val := { name := e.text }

/-- The medication branch of the relation pass: find the first
medication-like role (key containing `"MEDICATION"`) in dict iteration
order; if one exists, `m = meds.setdefault(entity_key(med_ent), fresh)` and
the in-place mutation of `m` updates its binding. -/
def relStepMeds (Val : Type) (meds : List (EntityKey × Medication Val))
    (roles : List (PyStr × HEntity Val)) : List (EntityKey × Medication Val) :=
  match roles.find? (fun kv => hasSub medNeedle kv.1) with
  | none => meds
  | some kv =>
    dictInsert (dictSetdefault meds (entity_key Val kv.2) (relFreshMed Val kv.2))
      (entity_key Val kv.2)
      (applyMedRoles Val roles
        ((dictFind (dictSetdefault meds (entity_key Val kv.2) (relFreshMed Val kv.2))
            (entity_key Val kv.2)).getD (relFreshMed Val kv.2)))

/-- The lab branch of the relation pass: the same shape for the first
examination-like role (key containing `"EXAMINATION"`). -/
def relStepLabs (Val : Type) (labs : List (EntityKey × Lab Val))
    (roles : List (PyStr × HEntity Val)) : List (EntityKey × Lab Val) :=
  match roles.find? (fun kv => hasSub examNeedle kv.1) with
  | none => labs
  | some kv =>
    dictInsert (dictSetdefault labs (entity_key Val kv.2) (relFreshLab Val kv.2))
      (entity_key Val kv.2)
      (applyLabRoles Val roles
        ((dictFind (dictSetdefault labs (entity_key Val kv.2) (relFreshLab Val kv.2))
            (entity_key Val kv.2)).getD (relFreshLab Val kv.2)))

/-- Second pass of `analyze_with_azure` for one relation: build the role
dict, then run the medication branch (touching only `meds`) and the lab
branch (touching only `labs`). -/
def relStep (Val : Type) (st : AzState Val) (rel : HRelation Val) : AzState Val :=
  { st with meds := relStepMeds Val st.meds (buildRoles Val rel.roles)
            labs := relStepLabs Val st.labs (buildRoles Val rel.roles) }

/-- Processing of one per-document result: errored documents are skipped
(`if getattr(doc_result, "is_error", False): continue`), otherwise the
entity pass runs before the relation pass. -/
def processDoc (Val : Type) (st : AzState Val) (doc : DocResult Val) : AzState Val :=
  if doc.is_error then st
  else
    let st := doc.entities.foldl (entStep Val) st
    doc.entity_relations.foldl (relStep Val) st

/-- Processing of all result pages of one batch call. -/
def processPages (Val : Type) (st : AzState Val) (pages : List (DocResult Val)) : AzState Val :=
  pages.foldl (processDoc Val) st

/-- The payload filter `if t and t.strip()`. -/
def payloadOk (t : PyStr) : Bool := pyTruthyStr t && pyTruthyStr (pyStrip t)

/-- The sequence of payloads submitted by the batching loop
`for i in range(0, len(documents), 25)`: each batch is the slice
`documents[i : i + 25]`, whitespace-only chunks are dropped from the
payload, an entirely empty payload makes the loop `continue` without a
call.  The `id` field `str(i + j)` is modelled as the numeric index
`i + j`; fuel-driven, one unit per batch. -/
def azureCallsAux : Nat → Nat → List PyStr → List (List (Nat × PyStr))
  | 0, _, _ => []
  | fuel + 1, i, docs =>
    if docs.isEmpty then []
    else
      if ((List.enumFrom i (docs.take 25)).filter (fun jt => payloadOk jt.2)).isEmpty then
        azureCallsAux fuel (i + 25) (docs.drop 25)
      else
        (List.enumFrom i (docs.take 25)).filter (fun jt => payloadOk jt.2)
          :: azureCallsAux fuel (i + 25) (docs.drop 25)

/-- All payloads submitted for a chunk list. -/
def azureCalls (docs : List PyStr) : List (List (Nat × PyStr)) :=
  azureCallsAux (docs.length + 1) 0 docs

/-- The remote service oracle: one batch call. -/
abbrev AzureSvc (Val : Type) := List (Nat × PyStr) → Except Unit (List (DocResult Val))

/-- One batch call of the loop: a failed call raises (`HttpResponseError`
is re-raised as `RuntimeError`), aborting everything after it; a successful
call contributes its result pages to the state. -/
def batchStep (Val : Type) (svc : AzureSvc Val) (acc : Except Unit (AzState Val))
    (payload : List (Nat × PyStr)) : Except Unit (AzState Val) :=
  match acc with
  | .error e => .error e
  | .ok st =>
    match svc payload with
    | .error e => .error e
    | .ok pages => .ok (processPages Val st pages)

/-- The batching loop of `analyze_with_azure`: submit each payload in order;
a failed call raises immediately (no partial results survive), a successful
call's pages are folded into the state. -/
def processBatches (Val : Type) (svc : AzureSvc Val) (docs : List PyStr) :
    Except Unit (AzState Val) :=
  (azureCalls docs).foldl (batchStep Val svc) (.ok {})

/-- The final dict returned by `analyze_with_azure`. -/
def mkAzureEnvelope (Val : Type) (st : AzState Val) : Envelope Val :=
  { source := azureTag
    diagnoses := st.diagnoses.map (·.2)
    medications := st.meds.map (·.2)
    symptoms := st.symptoms.map (·.2)
    labs := st.labs.map (·.2) }

/-- `analyze_with_azure(text)`, parameterised by the configured client
(`get_azure_client()` returns `None` when no credentials are configured, and
the adapter then raises `RuntimeError("Azure client not configured")`,
modelled as `Except.error`).  Chunking uses the default bound 120000. -/
def analyzeWithClient (Val : Type) (svc : AzureSvc Val) (text : PyStr) :
    Except Unit (Envelope Val) :=
  match processBatches Val svc ((chunk_text text 120000).getD []) with
  | .error e => .error e
  | .ok st => .ok (mkAzureEnvelope Val st)

def analyze_with_azure (Val : Type) (client : Option (AzureSvc Val)) (text : PyStr) :
    Except Unit (Envelope Val) :=
  match client with
  | none => .error ()
  | some svc => analyzeWithClient Val svc text

/-- `extract_health_from_text(text)`: try Azure first, fall back to the
rule-based extractor on any exception. -/
def extract_health_from_text (Val : Type) (client : Option (AzureSvc Val)) (text : PyStr) :
    Envelope Val :=
  match analyze_with_azure Val client text with
  | .ok env => env
  | .error _ => extract_rule_based Val text

/-! ## Chunking lemmas (claims C2 and C10) -/

/-- Specification of `rfindNlAux`: a found index lies in `[s, e)` and holds a
newline. -/
theorem rfindNlAux_spec (text : PyStr) (s : Nat) :
    ∀ e i, rfindNlAux text s e = some i →
      s ≤ i ∧ i < e ∧ text.get? i = some '\n' := by
  intro e
  induction e with
  | zero => intro i h; simp [rfindNlAux] at h
  | succ j ih =>
    intro i h
    unfold rfindNlAux at h
    by_cases hc : (s ≤ j && text.get? j == some '\n') = true
    · rw [if_pos hc] at h
      simp only [Bool.and_eq_true, decide_eq_true_eq, beq_iff_eq] at hc
      cases h
      exact ⟨hc.1, Nat.lt_succ_self j, hc.2⟩
    · rw [if_neg hc] at h
      obtain ⟨h1, h2, h3⟩ := ih i h
      exact ⟨h1, Nat.lt_succ_of_lt h2, h3⟩

/-- The split position never moves backwards. -/
theorem nextNl_ge (text : PyStr) (maxChars start : Nat) (h1 : start < text.length) :
    start ≤ nextNl text maxChars start := by
  unfold nextNl
  cases hr : rfindNl text start (min (start + maxChars) text.length) with
  | none => simp only [nlChoice]; omega
  | some i =>
    have hspec := rfindNlAux_spec text start _ i hr
    simp only [nlChoice]
    by_cases hc : i ≤ start + 1000
    · rw [if_pos hc]; omega
    · rw [if_neg hc]; omega

/-- For a positive bound, each loop iteration strictly advances the split
position. -/
theorem nextNl_gt (text : PyStr) (maxChars start : Nat) (h1 : start < text.length)
    (h2 : 1 ≤ maxChars) : start < nextNl text maxChars start := by
  unfold nextNl
  cases hr : rfindNl text start (min (start + maxChars) text.length) with
  | none => simp only [nlChoice]; omega
  | some i =>
    have hspec := rfindNlAux_spec text start _ i hr
    simp only [nlChoice]
    by_cases hc : i ≤ start + 1000
    · rw [if_pos hc]; omega
    · rw [if_neg hc]; omega

/-- The split position stays inside the text. -/
theorem nextNl_le_length (text : PyStr) (maxChars start : Nat) :
    nextNl text maxChars start ≤ text.length := by
  unfold nextNl
  cases hr : rfindNl text start (min (start + maxChars) text.length) with
  | none => simp only [nlChoice]; omega
  | some i =>
    have hspec := rfindNlAux_spec text start _ i hr
    simp only [nlChoice]
    by_cases hc : i ≤ start + 1000
    · rw [if_pos hc]; omega
    · rw [if_neg hc]; omega

/-- The split position stays within one bound of the chunk start. -/
theorem nextNl_le_add (text : PyStr) (maxChars start : Nat) :
    nextNl text maxChars start ≤ start + maxChars := by
  unfold nextNl
  cases hr : rfindNl text start (min (start + maxChars) text.length) with
  | none => simp only [nlChoice]; omega
  | some i =>
    have hspec := rfindNlAux_spec text start _ i hr
    simp only [nlChoice]
    by_cases hc : i ≤ start + 1000
    · rw [if_pos hc]; omega
    · rw [if_neg hc]; omega

/-- A slice glued back onto the rest of the text restores the suffix. -/
theorem sliceL_append_drop (text : PyStr) (s e : Nat) (h1 : s ≤ e) :
    sliceL text s e ++ text.drop e = text.drop s := by
  unfold sliceL
  have h2 : text.drop e = (text.drop s).drop (e - s) := by
    rw [List.drop_drop]
    congr 1
    omega
  rw [h2, List.take_append_drop]

/-- Concatenating the chunks produced by the loop restores the suffix of the
text from the loop's start position. -/
theorem chunkAux_join (text : PyStr) (maxChars : Nat) :
    ∀ fuel start cs, chunkAux text maxChars fuel start = some cs →
      cs.flatten = text.drop start := by
  intro fuel
  induction fuel with
  | zero => intro start cs h; simp [chunkAux] at h
  | succ n ih =>
    intro start cs h
    unfold chunkAux at h
    by_cases hlt : start < text.length
    · rw [if_pos hlt] at h
      cases hrec : chunkAux text maxChars n (nextNl text maxChars start) with
      | none => rw [hrec] at h; cases h
      | some rest =>
        rw [hrec] at h
        cases h
        have hjoin := ih _ _ hrec
        simp only [List.flatten_cons]
        rw [hjoin]
        exact sliceL_append_drop text start _ (nextNl_ge text maxChars start hlt)
    · rw [if_neg hlt] at h
      cases h
      simp [List.drop_eq_nil_of_le (by omega : text.length ≤ start)]

/-- Every chunk produced by the loop has length at most the bound. -/
theorem chunkAux_bounded (text : PyStr) (maxChars : Nat) :
    ∀ fuel start cs, chunkAux text maxChars fuel start = some cs →
      ∀ c ∈ cs, c.length ≤ maxChars := by
  intro fuel
  induction fuel with
  | zero => intro start cs h; simp [chunkAux] at h
  | succ n ih =>
    intro start cs h
    unfold chunkAux at h
    by_cases hlt : start < text.length
    · rw [if_pos hlt] at h
      cases hrec : chunkAux text maxChars n (nextNl text maxChars start) with
      | none => rw [hrec] at h; cases h
      | some rest =>
        rw [hrec] at h
        cases h
        intro c hc
        rcases List.mem_cons.mp hc with hhd | htl
        · subst hhd
          have hle : nextNl text maxChars start ≤ start + maxChars :=
            nextNl_le_add text maxChars start
          unfold sliceL
          have := List.length_take (nextNl text maxChars start - start) (text.drop start)
          omega
        · exact ih _ _ hrec c htl
    · rw [if_neg hlt] at h
      cases h
      intro c hc
      cases hc

/-- For a positive bound, every chunk produced by the loop is nonempty. -/
theorem chunkAux_nonempty (text : PyStr) (maxChars : Nat) (hmc : 1 ≤ maxChars) :
    ∀ fuel start cs, chunkAux text maxChars fuel start = some cs →
      ∀ c ∈ cs, c ≠ [] := by
  intro fuel
  induction fuel with
  | zero => intro start cs h; simp [chunkAux] at h
  | succ n ih =>
    intro start cs h
    unfold chunkAux at h
    by_cases hlt : start < text.length
    · rw [if_pos hlt] at h
      cases hrec : chunkAux text maxChars n (nextNl text maxChars start) with
      | none => rw [hrec] at h; cases h
      | some rest =>
        rw [hrec] at h
        cases h
        intro c hc
        rcases List.mem_cons.mp hc with hhd | htl
        · subst hhd
          have hgt : start < nextNl text maxChars start := nextNl_gt text maxChars start hlt hmc
          have hlen : (sliceL text start (nextNl text maxChars start)).length > 0 := by
            unfold sliceL
            have h1 := List.length_take (nextNl text maxChars start - start) (text.drop start)
            have h2 := List.length_drop start text
            omega
          intro hnil
          rw [hnil] at hlen
          simp at hlen
        · exact ih _ _ hrec c htl
    · rw [if_neg hlt] at h
      cases h
      intro c hc
      cases hc

/-- For a positive bound the loop terminates within `len(text) - start` steps
of fuel (plus one for the final test). -/
theorem chunkAux_isSome (text : PyStr) (maxChars : Nat) (hmc : 1 ≤ maxChars) :
    ∀ fuel start, text.length - start < fuel →
      (chunkAux text maxChars fuel start).isSome := by
  intro fuel
  induction fuel with
  | zero => intro start h; omega
  | succ n ih =>
    intro start h
    unfold chunkAux
    by_cases hlt : start < text.length
    · rw [if_pos hlt]
      have hgt : start < nextNl text maxChars start := nextNl_gt text maxChars start hlt hmc
      have hrec := ih (nextNl text maxChars start) (by omega)
      cases hx : chunkAux text maxChars n (nextNl text maxChars start) with
      | none => rw [hx] at hrec; simp at hrec
      | some rest => simp
    · rw [if_neg hlt]; simp

/-! ## Claim C2 -/

/-- C2, counterexample for the amended part: for bound `0` (a value the
claim's universal quantification over bounds admits) and the nonempty text
`"a"`, the `chunk_text` loop never terminates — the split position cannot
advance — so no chunk sequence is returned at all.  `chunkDiverges`
states that no amount of fuel makes the loop finish. -/
theorem C2_chunk_zero_counterexample :
    chunkDiverges "a".data 0 ∧ chunk_text "a".data 0 = none := by
  have h : chunkDiverges "a".data 0 := by
    intro fuel
    induction fuel with
    | zero => rfl
    | succ n ih =>
      have hstep : chunkAux "a".data 0 (n + 1) 0
          = match chunkAux "a".data 0 n 0 with
            | none => none
            | some rest => some (sliceL "a".data 0 0 :: rest) := rfl
      rw [hstep, ih]
  exact ⟨h, h 2⟩

/-- C2, amended: for every text and every bound of at least one character,
`chunk_text` returns a chunk sequence whose concatenation is exactly the
input, with every chunk of length at most the bound, and a single-element
sequence `[text]` whenever the text already fits the bound.  (For bound `0`
the loop diverges, see the counterexample.) -/
theorem C2_chunk_roundtrip (text : PyStr) (maxChars : Nat) (hmc : 1 ≤ maxChars) :
    ∃ chunks, chunk_text text maxChars = some chunks ∧
      chunks.flatten = text ∧
      (∀ c ∈ chunks, c.length ≤ maxChars) ∧
      (text.length ≤ maxChars → chunks = [text]) := by
  unfold chunk_text
  by_cases hle : text.length ≤ maxChars
  · refine ⟨[text], by rw [if_pos hle], by simp, ?_, fun _ => rfl⟩
    intro c hc
    rcases List.mem_cons.mp hc with hhd | htl
    · subst hhd; exact hle
    · cases htl
  · rw [if_neg hle]
    have hsome := chunkAux_isSome text maxChars hmc (text.length + 1) 0 (by omega)
    cases hx : chunkAux text maxChars (text.length + 1) 0 with
    | none => rw [hx] at hsome; simp at hsome
    | some cs =>
      refine ⟨cs, rfl, ?_, chunkAux_bounded text maxChars _ _ _ hx, fun hcon => absurd hcon hle⟩
      have := chunkAux_join text maxChars _ _ _ hx
      simpa using this

/-- Witness for C2 at a concrete input: bound `1`, text `"ab"`. -/
theorem C2_chunk_roundtrip_witness : (chunk_text "ab".data 1).isSome = true := by
  obtain ⟨cs, hcs, -, -, -⟩ := C2_chunk_roundtrip "ab".data 1 (by decide)
  rw [hcs]
  rfl

/-! ## Claim C10 -/

/-- C10, confirmed: for every text and every bound `max_chars ≥ 1`, each
loop iteration strictly advances the split position (`nextNl`) by at least
one character while staying inside the text, `chunk_text` terminates
(returns a sequence), and when the text is longer than the bound every
returned chunk is nonempty. -/
theorem C10_chunk_terminates (text : PyStr) (maxChars : Nat) (hmc : 1 ≤ maxChars) :
    (∀ start, start < text.length →
        start < nextNl text maxChars start ∧ nextNl text maxChars start ≤ text.length) ∧
      ∃ chunks, chunk_text text maxChars = some chunks ∧
        (maxChars < text.length → ∀ c ∈ chunks, c ≠ []) := by
  constructor
  · intro start hs
    exact ⟨nextNl_gt text maxChars start hs hmc, nextNl_le_length text maxChars start⟩
  · unfold chunk_text
    by_cases hle : text.length ≤ maxChars
    · exact ⟨[text], by rw [if_pos hle], fun hcon => by omega⟩
    · rw [if_neg hle]
      have hsome := chunkAux_isSome text maxChars hmc (text.length + 1) 0 (by omega)
      cases hx : chunkAux text maxChars (text.length + 1) 0 with
      | none => rw [hx] at hsome; simp at hsome
      | some cs =>
        exact ⟨cs, rfl, fun _ => chunkAux_nonempty text maxChars hmc _ _ _ hx⟩

/-- Witness for C10 at a concrete input: bound `2`, text `"abc"`. -/
theorem C10_chunk_terminates_witness : (chunk_text "abc".data 2).isSome = true := by
  obtain ⟨-, cs, hcs, -⟩ := C10_chunk_terminates "abc".data 2 (by decide)
  rw [hcs]
  rfl

/-! ## Dictionary lemmas (shared by claims C4, C5, C6) -/

section DictLemmas

variable {κ β : Type} [DecidableEq κ]

/-- Inserting binds the key to the value. -/
theorem dictFind_dictInsert_self (d : List (κ × β)) (k : κ) (v : β) :
    dictFind (dictInsert d k v) k = some v := by
  induction d with
  | nil => simp [dictInsert, dictFind]
  | cons hd tl ih =>
    unfold dictInsert
    by_cases hk : hd.1 = k
    · rw [if_pos hk]; simp [dictFind]
    · rw [if_neg hk]; unfold dictFind; rw [if_neg hk]; exact ih

/-- Inserting one key leaves the bindings of other keys unchanged. -/
theorem dictFind_dictInsert_ne (d : List (κ × β)) (k k2 : κ) (v : β) (h : k ≠ k2) :
    dictFind (dictInsert d k v) k2 = dictFind d k2 := by
  induction d with
  | nil => simp [dictInsert, dictFind, h]
  | cons hd tl ih =>
    unfold dictInsert
    by_cases hk : hd.1 = k
    · rw [if_pos hk]
      unfold dictFind
      rw [if_neg h, if_neg (hk ▸ h)]
    · rw [if_neg hk]
      unfold dictFind
      by_cases hk2 : hd.1 = k2
      · rw [if_pos hk2, if_pos hk2]
      · rw [if_neg hk2, if_neg hk2]; exact ih

/-- A member of `dictInsert d k v` is the new binding or an old member. -/
theorem mem_dictInsert (d : List (κ × β)) (k : κ) (v : β) :
    ∀ kv ∈ dictInsert d k v, kv = (k, v) ∨ kv ∈ d := by
  induction d with
  | nil => intro kv h; left; simpa [dictInsert] using h
  | cons hd tl ih =>
    intro kv h
    unfold dictInsert at h
    by_cases hk : hd.1 = k
    · rw [if_pos hk] at h
      rcases List.mem_cons.mp h with h1 | h2
      · left; exact h1
      · right; exact List.mem_cons_of_mem hd h2
    · rw [if_neg hk] at h
      rcases List.mem_cons.mp h with h1 | h2
      · right; rw [h1]; exact List.mem_cons_self hd tl
      · rcases ih kv h2 with h3 | h4
        · left; exact h3
        · right; exact List.mem_cons_of_mem hd h4

/-- A successful lookup is a membership. -/
theorem dictFind_mem (d : List (κ × β)) (k : κ) (v : β) :
    dictFind d k = some v → (k, v) ∈ d := by
  induction d with
  | nil => intro h; simp [dictFind] at h
  | cons hd tl ih =>
    intro h
    unfold dictFind at h
    by_cases hk : hd.1 = k
    · rw [if_pos hk] at h
      cases h
      have : hd = (k, hd.2) := by
        cases hd; simp_all
      rw [← this]
      exact List.mem_cons_self hd tl
    · rw [if_neg hk] at h
      exact List.mem_cons_of_mem hd (ih h)

/-- `setdefault` on a present key changes nothing. -/
theorem dictSetdefault_of_found (d : List (κ × β)) (k : κ) (v v0 : β)
    (h : dictFind d k = some v0) : dictSetdefault d k v = d := by
  induction d with
  | nil => simp [dictFind] at h
  | cons hd tl ih =>
    unfold dictFind at h
    unfold dictSetdefault
    by_cases hk : hd.1 = k
    · rw [if_pos hk]
    · rw [if_neg hk]
      rw [if_neg hk] at h
      rw [ih h]

/-- `setdefault` on an absent key appends the default binding. -/
theorem dictSetdefault_of_absent (d : List (κ × β)) (k : κ) (v : β)
    (h : dictFind d k = none) : dictSetdefault d k v = d ++ [(k, v)] := by
  induction d with
  | nil => simp [dictSetdefault]
  | cons hd tl ih =>
    unfold dictFind at h
    unfold dictSetdefault
    by_cases hk : hd.1 = k
    · rw [if_pos hk] at h; cases h
    · rw [if_neg hk] at h
      rw [if_neg hk, ih h]
      simp

/-- Lookup after `setdefault`: the old binding if present, else the default. -/
theorem dictFind_dictSetdefault_self (d : List (κ × β)) (k : κ) (v : β) :
    dictFind (dictSetdefault d k v) k = some ((dictFind d k).getD v) := by
  induction d with
  | nil => simp [dictSetdefault, dictFind]
  | cons hd tl ih =>
    unfold dictSetdefault
    by_cases hk : hd.1 = k
    · rw [if_pos hk]
      simp [dictFind, hk]
    · rw [if_neg hk]
      simp [dictFind, hk, ih]

/-- `setdefault` leaves the bindings of other keys unchanged. -/
theorem dictFind_dictSetdefault_ne (d : List (κ × β)) (k k2 : κ) (v : β) (h : k ≠ k2) :
    dictFind (dictSetdefault d k v) k2 = dictFind d k2 := by
  induction d with
  | nil => simp [dictSetdefault, dictFind, h]
  | cons hd tl ih =>
    unfold dictSetdefault
    by_cases hk : hd.1 = k
    · rw [if_pos hk]
    · rw [if_neg hk]
      unfold dictFind
      by_cases hk2 : hd.1 = k2
      · rw [if_pos hk2, if_pos hk2]
      · rw [if_neg hk2, if_neg hk2]; exact ih

/-- Unfolding lemma for `countKey` on a cons cell. -/
theorem countKey_cons (kv : κ × β) (d : List (κ × β)) (k : κ) :
    countKey (kv :: d) k = (if kv.1 = k then 1 else 0) + countKey d k := by
  unfold countKey
  by_cases hk : kv.1 = k
  · simp [List.filter_cons, hk, Nat.add_comm]
  · simp [List.filter_cons, hk]

/-- Inserting an absent key appends it; the key count becomes one. -/
theorem countKey_dictInsert (d : List (κ × β)) (k : κ) (v : β)
    (h : countKey d k ≤ 1) : countKey (dictInsert d k v) k = 1 := by
  induction d with
  | nil => simp [dictInsert, countKey]
  | cons hd tl ih =>
    unfold dictInsert
    by_cases hk : hd.1 = k
    · rw [if_pos hk]
      rw [countKey_cons] at h
      rw [countKey_cons]
      rw [if_pos hk] at h
      rw [if_pos rfl]
      omega
    · rw [if_neg hk]
      rw [countKey_cons] at h
      rw [countKey_cons]
      rw [if_neg hk] at h ⊢
      have := ih (by omega)
      omega

/-- `setdefault` keeps the key count at one (present key) or raises an absent
key's count to one. -/
theorem countKey_dictSetdefault (d : List (κ × β)) (k : κ) (v : β)
    (h : countKey d k ≤ 1) : countKey (dictSetdefault d k v) k = 1 := by
  induction d with
  | nil => simp [dictSetdefault, countKey]
  | cons hd tl ih =>
    unfold dictSetdefault
    by_cases hk : hd.1 = k
    · rw [if_pos hk]
      rw [countKey_cons] at h ⊢
      rw [if_pos hk] at h ⊢
      omega
    · rw [if_neg hk]
      rw [countKey_cons] at h
      rw [countKey_cons]
      rw [if_neg hk] at h ⊢
      have := ih (by omega)
      omega

/-- Inserting one key leaves other keys' counts unchanged. -/
theorem countKey_dictInsert_ne (d : List (κ × β)) (k k2 : κ) (v : β) (h : k ≠ k2) :
    countKey (dictInsert d k v) k2 = countKey d k2 := by
  induction d with
  | nil => simp [dictInsert, countKey, h]
  | cons hd tl ih =>
    unfold dictInsert
    by_cases hk : hd.1 = k
    · rw [if_pos hk]
      rw [countKey_cons, countKey_cons, hk]
    · rw [if_neg hk]
      rw [countKey_cons, countKey_cons, ih]

/-- `setdefault` leaves other keys' counts unchanged. -/
theorem countKey_dictSetdefault_ne (d : List (κ × β)) (k k2 : κ) (v : β) (h : k ≠ k2) :
    countKey (dictSetdefault d k v) k2 = countKey d k2 := by
  induction d with
  | nil => simp [dictSetdefault, countKey, h]
  | cons hd tl ih =>
    unfold dictSetdefault
    by_cases hk : hd.1 = k
    · rw [if_pos hk]
    · rw [if_neg hk]
      rw [countKey_cons, countKey_cons, ih]

/-- An absent key has count zero. -/
theorem countKey_of_find_none (d : List (κ × β)) (k : κ)
    (h : dictFind d k = none) : countKey d k = 0 := by
  induction d with
  | nil => simp [countKey]
  | cons hd tl ih =>
    unfold dictFind at h
    by_cases hk : hd.1 = k
    · rw [if_pos hk] at h; cases h
    · rw [if_neg hk] at h
      rw [countKey_cons]
      rw [if_neg hk]
      simpa using ih h

end DictLemmas

/-! ## Medication fill policy (claim C6) -/

/-- A stored optional field is healthy: absent, or a nonempty string.  The
loop body normalises empty strings away (`x or None`), so this invariant
holds for every field ever stored. -/
def optOk : Option PyStr → Bool
  | none => true
  | some s => !s.isEmpty

/-- The update expression `old or (captured or None)` always stores a healthy
value. -/
theorem optOk_pyOrOpt (a b : Option PyStr) : optOk (pyOrOpt a (pyOrNone b)) = true := by
  unfold pyOrOpt pyOrNone
  by_cases ha : pyTruthyOpt a = true
  · rw [if_pos ha]
    cases a with
    | none => simp [pyTruthyOpt] at ha
    | some s => simpa [optOk, pyTruthyOpt] using ha
  · rw [if_neg ha]
    by_cases hb : pyTruthyOpt b = true
    · rw [if_pos hb]
      cases b with
      | none => simp [pyTruthyOpt] at hb
      | some s => simpa [optOk, pyTruthyOpt] using hb
    · rw [if_neg hb]
      rfl

/-- A healthy truthy value survives `old or x`. -/
theorem pyOrOpt_of_truthy (a b : Option PyStr) (s : PyStr) (hs : s ≠ [])
    (ha : a = some s) : pyOrOpt a b = some s := by
  subst ha
  unfold pyOrOpt pyTruthyOpt
  rw [if_pos]
  simpa using hs

/-- Healthy fields of one medication record. -/
def medOk (Val : Type) (m : Medication Val) : Prop :=
  optOk m.dosage = true ∧ optOk m.frequency = true ∧ optOk m.route = true

/-- One loop iteration keeps every stored medication record healthy. -/
theorem ruleMedStep_fieldsOk (Val : Type) (meds : List (PyStr × Medication Val)) (caps : Caps)
    (hinv : ∀ kv ∈ meds, medOk Val kv.2) :
    ∀ kv ∈ ruleMedStep Val meds caps, medOk Val kv.2 := by
  intro kv hkv
  rcases mem_dictInsert _ _ _ kv hkv with hnew | hold
  · subst hnew
    exact ⟨optOk_pyOrOpt _ _, optOk_pyOrOpt _ _, optOk_pyOrOpt _ _⟩
  · exact hinv kv hold

/-- Every record stored by the medication loop is healthy. -/
theorem ruleMedsFold_fieldsOk (Val : Type) (ms : List Caps) :
    ∀ kv ∈ ruleMedsFold Val ms, medOk Val kv.2 := by
  suffices h : ∀ (ms : List Caps) (meds : List (PyStr × Medication Val)),
      (∀ kv ∈ meds, medOk Val kv.2) → ∀ kv ∈ ms.foldl (ruleMedStep Val) meds, medOk Val kv.2 by
    exact h ms [] (by intro kv hkv; cases hkv)
  intro ms
  induction ms with
  | nil => intro meds hinv; exact hinv
  | cons c rest ih =>
    intro meds hinv
    exact ih _ (ruleMedStep_fieldsOk Val meds c hinv)

/-- One loop iteration never clears a populated (nonempty) dosage, frequency
or route of any stored record. -/
theorem ruleMedStep_keeps (Val : Type) (meds : List (PyStr × Medication Val)) (caps : Caps)
    (name : PyStr) (m : Medication Val) (hfind : dictFind meds name = some m) :
    ∃ m2, dictFind (ruleMedStep Val meds caps) name = some m2 ∧
      (∀ d, d ≠ [] → m.dosage = some d → m2.dosage = some d) ∧
      (∀ f, f ≠ [] → m.frequency = some f → m2.frequency = some f) ∧
      (∀ r, r ≠ [] → m.route = some r → m2.route = some r) := by
  unfold ruleMedStep
  by_cases h : ruleMatchName caps = name
  · rw [h]
    refine ⟨ruleMedUpdate Val caps (ruleMedEntry Val meds caps),
      dictFind_dictInsert_self _ _ _, ?_, ?_, ?_⟩
    all_goals
      intro x hx hm
      unfold ruleMedEntry
      rw [h, hfind]
      unfold ruleMedUpdate
      simp only
      exact pyOrOpt_of_truthy _ _ x hx hm
  · exact ⟨m, by rw [dictFind_dictInsert_ne _ _ _ _ h, hfind],
      fun d _ hd => hd, fun f _ hf => hf, fun r _ hr => hr⟩

/-- Folding further matches never clears populated fields. -/
theorem ruleMedFold_keeps (Val : Type) (ms2 : List Caps) :
    ∀ (meds : List (PyStr × Medication Val)) (name : PyStr) (m : Medication Val),
      dictFind meds name = some m →
      ∃ m2, dictFind (ms2.foldl (ruleMedStep Val) meds) name = some m2 ∧
        (∀ d, d ≠ [] → m.dosage = some d → m2.dosage = some d) ∧
        (∀ f, f ≠ [] → m.frequency = some f → m2.frequency = some f) ∧
        (∀ r, r ≠ [] → m.route = some r → m2.route = some r) := by
  induction ms2 with
  | nil =>
    intro meds name m hfind
    exact ⟨m, hfind, fun d _ hd => hd, fun f _ hf => hf, fun r _ hr => hr⟩
  | cons c rest ih =>
    intro meds name m hfind
    obtain ⟨m1, hfind1, hd1, hf1, hr1⟩ := ruleMedStep_keeps Val meds c name m hfind
    obtain ⟨m2, hfind2, hd2, hf2, hr2⟩ := ih _ name m1 hfind1
    exact ⟨m2, hfind2,
      fun d hne hd => hd2 d hne (hd1 d hne hd),
      fun f hne hf => hf2 f hne (hf1 f hne hf),
      fun r hne hr => hr2 r hne (hr1 r hne hr)⟩

/-! ## Claim C6 -/

/-- C6, confirmed: in the rule-based medication extractor, once a
medication name's record holds a dosage, frequency or route, no later line
match for the same name (with or without a value for that field) ever
changes it: `ruleMedsFold` is the medication loop of `extract_rule_based`
over the match list, and extending the match list preserves every populated
field of every stored record.  (The `entry.dosage or ...` guard keeps a
truthy — nonempty — value, and the invariant `medOk` shows stored values
are never empty strings.) -/
theorem C6_med_fill_policy (Val : Type) (ms1 ms2 : List Caps) (name : PyStr)
    (m : Medication Val) (hfind : dictFind (ruleMedsFold Val ms1) name = some m) :
    ∃ m2, dictFind (ruleMedsFold Val (ms1 ++ ms2)) name = some m2 ∧
      (∀ d, m.dosage = some d → m2.dosage = some d) ∧
      (∀ f, m.frequency = some f → m2.frequency = some f) ∧
      (∀ r, m.route = some r → m2.route = some r) := by
  have hmem := dictFind_mem _ _ _ hfind
  have hok := ruleMedsFold_fieldsOk Val ms1 (name, m) hmem
  obtain ⟨hok1, hok2, hok3⟩ := hok
  have hfold : ruleMedsFold Val (ms1 ++ ms2)
      = ms2.foldl (ruleMedStep Val) (ruleMedsFold Val ms1) := by
    unfold ruleMedsFold
    exact List.foldl_append _ _ _ _
  obtain ⟨m2, hfind2, hd, hf, hr⟩ := ruleMedFold_keeps Val ms2 _ name m hfind
  rw [hfold]
  refine ⟨m2, hfind2, ?_, ?_, ?_⟩
  · intro d hd0
    refine hd d ?_ hd0
    rw [hd0] at hok1
    simp only [optOk, Bool.not_eq_true'] at hok1
    simpa [List.isEmpty_iff] using hok1
  · intro f hf0
    refine hf f ?_ hf0
    rw [hf0] at hok2
    simp only [optOk, Bool.not_eq_true'] at hok2
    simpa [List.isEmpty_iff] using hok2
  · intro r hr0
    refine hr r ?_ hr0
    rw [hr0] at hok3
    simp only [optOk, Bool.not_eq_true'] at hok3
    simpa [List.isEmpty_iff] using hok3

/-- First batch of matches for the C6 witness: `Aspirin` with dosage `10mg`. -/
def c6ms1 : List Caps := [[(nameK, "Aspirin".data), (doseK, "10mg".data)]]

/-- Second batch for the C6 witness: a later `Aspirin` match with no dosage. -/
def c6ms2 : List Caps := [[(nameK, "Aspirin".data)]]

/-- Witness for C6: the dosage `10mg` recorded for `Aspirin` survives a later
match carrying no dosage. -/
theorem C6_med_fill_policy_witness :
    (dictFind (ruleMedsFold Unit (c6ms1 ++ c6ms2)) "Aspirin".data).map
      (fun m => m.dosage) = some (some "10mg".data) := by
  obtain ⟨m2, hfind, hd, -, -⟩ :=
    C6_med_fill_policy Unit c6ms1 c6ms2 "Aspirin".data
      { name := "Aspirin".data, dosage := some "10mg".data, source := ruleTag } rfl
  rw [hfind]
  simp only [Option.map_some']
  rw [hd "10mg".data rfl]

/-! ## Entity-pass deduplication (claim C4) -/

/-- Branch lemma: a `DIAGNOSIS` entity overwrites its key's binding. -/
theorem entStep_diag (Val : Type) (st : AzState Val) (e : HEntity Val)
    (h : pyUpper e.category = catDiagnosis) :
    entStep Val st e
      = { st with diagnoses := dictInsert st.diagnoses (entity_key Val e) (mkAzDiagnosis Val e) } := by
  unfold entStep
  rw [if_pos h]

/-- Branch lemma: a `SYMPTOM_OR_SIGN` entity overwrites its key's binding. -/
theorem entStep_symp (Val : Type) (st : AzState Val) (e : HEntity Val)
    (h : pyUpper e.category = catSymptom) :
    entStep Val st e
      = { st with symptoms := dictInsert st.symptoms (entity_key Val e) (mkAzSymptom Val e) } := by
  unfold entStep
  rw [if_neg (by rw [h]; decide), if_pos h]

/-- Branch lemma: a `MEDICATION_NAME` entity is inserted via `setdefault`. -/
theorem entStep_med (Val : Type) (st : AzState Val) (e : HEntity Val)
    (h : pyUpper e.category = catMedication) :
    entStep Val st e
      = { st with meds := dictSetdefault st.meds (entity_key Val e) (mkAzMedication Val e) } := by
  unfold entStep
  rw [if_neg (by rw [h]; decide), if_neg (by rw [h]; decide), if_pos h]

/-- Branch lemma: an `EXAMINATION_NAME` entity is inserted via `setdefault`. -/
theorem entStep_lab (Val : Type) (st : AzState Val) (e : HEntity Val)
    (h : pyUpper e.category = catExamination) :
    entStep Val st e
      = { st with labs := dictSetdefault st.labs (entity_key Val e) (mkAzLab Val e) } := by
  unfold entStep
  rw [if_neg (by rw [h]; decide), if_neg (by rw [h]; decide), if_neg (by rw [h]; decide),
    if_pos h]

/-- Every key occurs at most once in each deduplication map (true of every
state the adapter ever builds, since all four maps are Python dicts). -/
def stKeysOk (Val : Type) (st : AzState Val) : Prop :=
  (∀ k, countKey st.diagnoses k ≤ 1) ∧ (∀ k, countKey st.symptoms k ≤ 1) ∧
    (∀ k, countKey st.meds k ≤ 1) ∧ (∀ k, countKey st.labs k ≤ 1)

/-- `dictInsert` keeps every key's count at most one. -/
theorem countKey_dictInsert_le (d : List (κ × β)) [DecidableEq κ] (k : κ) (v : β)
    (h : ∀ k2, countKey d k2 ≤ 1) : ∀ k2, countKey (dictInsert d k v) k2 ≤ 1 := by
  intro k2
  by_cases hk : k = k2
  · subst hk
    rw [countKey_dictInsert d k v (h k)]
  · rw [countKey_dictInsert_ne d k k2 v hk]
    exact h k2

/-- `dictSetdefault` keeps every key's count at most one. -/
theorem countKey_dictSetdefault_le (d : List (κ × β)) [DecidableEq κ] (k : κ) (v : β)
    (h : ∀ k2, countKey d k2 ≤ 1) : ∀ k2, countKey (dictSetdefault d k v) k2 ≤ 1 := by
  intro k2
  by_cases hk : k = k2
  · subst hk
    rw [countKey_dictSetdefault d k v (h k)]
  · rw [countKey_dictSetdefault_ne d k k2 v hk]
    exact h k2

/-- The entity pass keeps every deduplication map duplicate-free. -/
theorem stKeysOk_entStep (Val : Type) (st : AzState Val) (e : HEntity Val)
    (hok : stKeysOk Val st) : stKeysOk Val (entStep Val st e) := by
  obtain ⟨h1, h2, h3, h4⟩ := hok
  unfold entStep
  by_cases c1 : pyUpper e.category = catDiagnosis
  · rw [if_pos c1]
    exact ⟨countKey_dictInsert_le _ _ _ h1, h2, h3, h4⟩
  · rw [if_neg c1]
    by_cases c2 : pyUpper e.category = catSymptom
    · rw [if_pos c2]
      exact ⟨h1, countKey_dictInsert_le _ _ _ h2, h3, h4⟩
    · rw [if_neg c2]
      by_cases c3 : pyUpper e.category = catMedication
      · rw [if_pos c3]
        exact ⟨h1, h2, countKey_dictSetdefault_le _ _ _ h3, h4⟩
      · rw [if_neg c3]
        by_cases c4 : pyUpper e.category = catExamination
        · rw [if_pos c4]
          exact ⟨h1, h2, h3, countKey_dictSetdefault_le _ _ _ h4⟩
        · rw [if_neg c4]
          exact ⟨h1, h2, h3, h4⟩

/-! ## Claim C4 -/

/-- C4, confirmed: in the entity pass, two detections with the same entity
key `(text, category, offset)` collapse into exactly one binding of the
corresponding map (`countKey = 1`); for diagnoses and symptoms the second
detection's record replaces the whole binding (last writer wins), while for
medications and labs the binding after both detections is the first one
seen — the pre-existing record if the key was already present, else the
record built from the first detection — and the duplicate never replaces
it (`setdefault`). -/
theorem C4_dedup_collapse (Val : Type) (st : AzState Val) (e1 e2 : HEntity Val)
    (hkey : entity_key Val e1 = entity_key Val e2) (hok : stKeysOk Val st) :
    stKeysOk Val (entStep Val (entStep Val st e1) e2) ∧
      (pyUpper e1.category = catDiagnosis →
        countKey (entStep Val (entStep Val st e1) e2).diagnoses (entity_key Val e1) = 1 ∧
        dictFind (entStep Val (entStep Val st e1) e2).diagnoses (entity_key Val e1)
          = some (mkAzDiagnosis Val e2)) ∧
      (pyUpper e1.category = catSymptom →
        countKey (entStep Val (entStep Val st e1) e2).symptoms (entity_key Val e1) = 1 ∧
        dictFind (entStep Val (entStep Val st e1) e2).symptoms (entity_key Val e1)
          = some (mkAzSymptom Val e2)) ∧
      (pyUpper e1.category = catMedication →
        countKey (entStep Val (entStep Val st e1) e2).meds (entity_key Val e1) = 1 ∧
        dictFind (entStep Val (entStep Val st e1) e2).meds (entity_key Val e1)
          = some ((dictFind st.meds (entity_key Val e1)).getD (mkAzMedication Val e1))) ∧
      (pyUpper e1.category = catExamination →
        countKey (entStep Val (entStep Val st e1) e2).labs (entity_key Val e1) = 1 ∧
        dictFind (entStep Val (entStep Val st e1) e2).labs (entity_key Val e1)
          = some ((dictFind st.labs (entity_key Val e1)).getD (mkAzLab Val e1))) := by
  have hcat : e1.category = e2.category := congrArg (fun t => t.2.1) hkey
  refine ⟨stKeysOk_entStep Val _ e2 (stKeysOk_entStep Val st e1 hok), ?_, ?_, ?_, ?_⟩
  · intro h1
    have h2 : pyUpper e2.category = catDiagnosis := by rw [← hcat]; exact h1
    rw [entStep_diag Val st e1 h1, entStep_diag Val _ e2 h2]
    simp only
    rw [← hkey]
    constructor
    · exact countKey_dictInsert _ _ _
        (Nat.le_of_eq (countKey_dictInsert _ _ _ (hok.1 (entity_key Val e1))))
    · exact dictFind_dictInsert_self _ _ _
  · intro h1
    have h2 : pyUpper e2.category = catSymptom := by rw [← hcat]; exact h1
    rw [entStep_symp Val st e1 h1, entStep_symp Val _ e2 h2]
    simp only
    rw [← hkey]
    constructor
    · exact countKey_dictInsert _ _ _
        (Nat.le_of_eq (countKey_dictInsert _ _ _ (hok.2.1 (entity_key Val e1))))
    · exact dictFind_dictInsert_self _ _ _
  · intro h1
    have h2 : pyUpper e2.category = catMedication := by rw [← hcat]; exact h1
    rw [entStep_med Val st e1 h1, entStep_med Val _ e2 h2]
    simp only
    rw [← hkey]
    constructor
    · exact countKey_dictSetdefault _ _ _
        (Nat.le_of_eq (countKey_dictSetdefault _ _ _ (hok.2.2.1 (entity_key Val e1))))
    · rw [dictFind_dictSetdefault_self, dictFind_dictSetdefault_self]
      rfl
  · intro h1
    have h2 : pyUpper e2.category = catExamination := by rw [← hcat]; exact h1
    rw [entStep_lab Val st e1 h1, entStep_lab Val _ e2 h2]
    simp only
    rw [← hkey]
    constructor
    · exact countKey_dictSetdefault _ _ _
        (Nat.le_of_eq (countKey_dictSetdefault _ _ _ (hok.2.2.2 (entity_key Val e1))))
    · rw [dictFind_dictSetdefault_self, dictFind_dictSetdefault_self]
      rfl

/-- First detection for the C4 witness. -/
def c4e1 : HEntity Unit := { text := "flu".data, category := "Diagnosis".data, offset := 3 }

/-- Duplicate detection (same key, different normalisation) for the C4
witness. -/
def c4e2 : HEntity Unit :=
  { text := "flu".data, category := "Diagnosis".data, offset := 3,
    normalized_text := some "influenza".data }

/-- Witness for C4: a duplicated diagnosis detection leaves exactly one
binding, holding the second detection's record. -/
theorem C4_dedup_collapse_witness :
    countKey (entStep Unit (entStep Unit ({} : AzState Unit) c4e1) c4e2).diagnoses
        (entity_key Unit c4e1) = 1 ∧
      dictFind (entStep Unit (entStep Unit ({} : AzState Unit) c4e1) c4e2).diagnoses
        (entity_key Unit c4e1) = some (mkAzDiagnosis Unit c4e2) := by
  obtain ⟨-, hdiag, -, -, -⟩ :=
    C4_dedup_collapse Unit {} c4e1 c4e2 rfl
      (by refine ⟨?_, ?_, ?_, ?_⟩ <;> intro k <;> simp [countKey])
  exact hdiag (by decide)

/-! ## Relation enrichment (claim C5) -/

/-- Field equations of the medication role updates: every present role
overwrites the mapped field, absent roles leave it untouched, and the route
branch for `ROUTEOFADMINISTRATION`/`ROUTE_OF_ADMINISTRATION` runs after the
`ROUTE` branch. -/
theorem applyMedRoles_fields (Val : Type) (roles : List (PyStr × HEntity Val))
    (m : Medication Val) :
    ((applyMedRoles Val roles m).dosage
        = match dictFind roles roleDOSAGE with
          | some e => some e.text
          | none => m.dosage) ∧
      ((applyMedRoles Val roles m).frequency
        = match dictFind roles roleFREQUENCY with
          | some e => some e.text
          | none => m.frequency) ∧
      ((applyMedRoles Val roles m).route
        = match pyOrEnt Val (dictFind roles roleROA) (dictFind roles roleROA2) with
          | some e => some e.text
          | none =>
            match dictFind roles roleROUTE with
            | some e => some e.text
            | none => m.route) ∧
      ((applyMedRoles Val roles m).form
        = match pyOrEnt Val (dictFind roles roleFORM) (dictFind roles roleMEDFORM) with
          | some e => some e.text
          | none => m.form) ∧
      (applyMedRoles Val roles m).name = m.name ∧
      (applyMedRoles Val roles m).source = m.source := by
  exact ⟨rfl, rfl, rfl, rfl, rfl, rfl⟩

/-- Field equations of the lab role updates. -/
theorem applyLabRoles_fields (Val : Type) (roles : List (PyStr × HEntity Val))
    (lab : Lab Val) :
    ((applyLabRoles Val roles lab).value
        = match dictFind roles roleMVALUE with
          | some e => some e.text
          | none => lab.value) ∧
      ((applyLabRoles Val roles lab).unit
        = match dictFind roles roleMUNIT with
          | some e => some e.text
          | none => lab.unit) ∧
      ((applyLabRoles Val roles lab).operator
        = match dictFind roles roleROP with
          | some e => some e.text
          | none => lab.operator) ∧
      (applyLabRoles Val roles lab).name = lab.name ∧
      (applyLabRoles Val roles lab).source = lab.source := by
  exact ⟨rfl, rfl, rfl, rfl, rfl⟩

/-- The medication branch binds the anchor's key to the enriched record. -/
theorem relStepMeds_spec (Val : Type) (meds : List (EntityKey × Medication Val))
    (roles : List (PyStr × HEntity Val)) (kv : PyStr × HEntity Val)
    (h : roles.find? (fun kv => hasSub medNeedle kv.1) = some kv) :
    dictFind (relStepMeds Val meds roles) (entity_key Val kv.2)
      = some (applyMedRoles Val roles
          ((dictFind meds (entity_key Val kv.2)).getD (relFreshMed Val kv.2))) := by
  unfold relStepMeds
  rw [h, dictFind_dictInsert_self, dictFind_dictSetdefault_self]
  rfl

/-- The lab branch binds the anchor's key to the enriched record. -/
theorem relStepLabs_spec (Val : Type) (labs : List (EntityKey × Lab Val))
    (roles : List (PyStr × HEntity Val)) (kv : PyStr × HEntity Val)
    (h : roles.find? (fun kv => hasSub examNeedle kv.1) = some kv) :
    dictFind (relStepLabs Val labs roles) (entity_key Val kv.2)
      = some (applyLabRoles Val roles
          ((dictFind labs (entity_key Val kv.2)).getD (relFreshLab Val kv.2))) := by
  unfold relStepLabs
  rw [h, dictFind_dictInsert_self, dictFind_dictSetdefault_self]
  rfl

/-! ## Claim C5 -/

/-- C5, confirmed: for every relation processed by the enrichment engine,
each present role unconditionally overwrites the mapped field of the
anchor's canonical record — `DOSAGE → dosage`, `FREQUENCY → frequency`,
`ROUTE` (or the `ROUTE_OF_ADMINISTRATION` spellings, which take precedence
when both are present) `→ route`, `FORM`/`MEDICATION_FORM` `→ form` for a
medication anchor; `MEASUREMENT_VALUE → value`, `MEASUREMENT_UNIT → unit`,
`RELATIONAL_OPERATOR → operator` for a lab anchor — and absent roles leave
the field at its prior value.  The prior state `st` is arbitrary, so the
last relation for an anchor wins per field, independently per field. -/
theorem C5_relation_enrichment (Val : Type) (st : AzState Val) (rel : HRelation Val) :
    (∀ kvm, (buildRoles Val rel.roles).find? (fun kv => hasSub medNeedle kv.1) = some kvm →
      ∃ m, dictFind (relStep Val st rel).meds (entity_key Val kvm.2) = some m ∧
        (∀ e, dictFind (buildRoles Val rel.roles) roleDOSAGE = some e →
          m.dosage = some e.text) ∧
        (dictFind (buildRoles Val rel.roles) roleDOSAGE = none →
          m.dosage = ((dictFind st.meds (entity_key Val kvm.2)).getD
            (relFreshMed Val kvm.2)).dosage) ∧
        (∀ e, dictFind (buildRoles Val rel.roles) roleFREQUENCY = some e →
          m.frequency = some e.text) ∧
        (dictFind (buildRoles Val rel.roles) roleFREQUENCY = none →
          m.frequency = ((dictFind st.meds (entity_key Val kvm.2)).getD
            (relFreshMed Val kvm.2)).frequency) ∧
        (∀ e, dictFind (buildRoles Val rel.roles) roleROA = some e →
          m.route = some e.text) ∧
        (∀ e, dictFind (buildRoles Val rel.roles) roleROA = none →
          dictFind (buildRoles Val rel.roles) roleROA2 = some e →
          m.route = some e.text) ∧
        (∀ e, dictFind (buildRoles Val rel.roles) roleROA = none →
          dictFind (buildRoles Val rel.roles) roleROA2 = none →
          dictFind (buildRoles Val rel.roles) roleROUTE = some e →
          m.route = some e.text) ∧
        (∀ e, dictFind (buildRoles Val rel.roles) roleFORM = some e →
          m.form = some e.text) ∧
        (∀ e, dictFind (buildRoles Val rel.roles) roleFORM = none →
          dictFind (buildRoles Val rel.roles) roleMEDFORM = some e →
          m.form = some e.text)) ∧
    (∀ kve, (buildRoles Val rel.roles).find? (fun kv => hasSub examNeedle kv.1) = some kve →
      ∃ lab, dictFind (relStep Val st rel).labs (entity_key Val kve.2) = some lab ∧
        (∀ e, dictFind (buildRoles Val rel.roles) roleMVALUE = some e →
          lab.value = some e.text) ∧
        (dictFind (buildRoles Val rel.roles) roleMVALUE = none →
          lab.value = ((dictFind st.labs (entity_key Val kve.2)).getD
            (relFreshLab Val kve.2)).value) ∧
        (∀ e, dictFind (buildRoles Val rel.roles) roleMUNIT = some e →
          lab.unit = some e.text) ∧
        (∀ e, dictFind (buildRoles Val rel.roles) roleROP = some e →
          lab.operator = some e.text)) := by
  constructor
  · intro kvm hmed
    have hspec := relStepMeds_spec Val st.meds (buildRoles Val rel.roles) kvm hmed
    refine ⟨_, hspec, ?_, ?_, ?_, ?_, ?_, ?_, ?_, ?_, ?_⟩
    · intro e he
      have hf := (applyMedRoles_fields Val (buildRoles Val rel.roles)
        ((dictFind st.meds (entity_key Val kvm.2)).getD (relFreshMed Val kvm.2))).1
      rw [hf, he]
    · intro he
      have hf := (applyMedRoles_fields Val (buildRoles Val rel.roles)
        ((dictFind st.meds (entity_key Val kvm.2)).getD (relFreshMed Val kvm.2))).1
      rw [hf, he]
    · intro e he
      have hf := (applyMedRoles_fields Val (buildRoles Val rel.roles)
        ((dictFind st.meds (entity_key Val kvm.2)).getD (relFreshMed Val kvm.2))).2.1
      rw [hf, he]
    · intro he
      have hf := (applyMedRoles_fields Val (buildRoles Val rel.roles)
        ((dictFind st.meds (entity_key Val kvm.2)).getD (relFreshMed Val kvm.2))).2.1
      rw [hf, he]
    · intro e he
      have hf := (applyMedRoles_fields Val (buildRoles Val rel.roles)
        ((dictFind st.meds (entity_key Val kvm.2)).getD (relFreshMed Val kvm.2))).2.2.1
      rw [hf]
      unfold pyOrEnt
      rw [he]
    · intro e he1 he2
      have hf := (applyMedRoles_fields Val (buildRoles Val rel.roles)
        ((dictFind st.meds (entity_key Val kvm.2)).getD (relFreshMed Val kvm.2))).2.2.1
      rw [hf]
      unfold pyOrEnt
      rw [he1, he2]
    · intro e he1 he2 he3
      have hf := (applyMedRoles_fields Val (buildRoles Val rel.roles)
        ((dictFind st.meds (entity_key Val kvm.2)).getD (relFreshMed Val kvm.2))).2.2.1
      rw [hf]
      unfold pyOrEnt
      rw [he1, he2, he3]
    · intro e he
      have hf := (applyMedRoles_fields Val (buildRoles Val rel.roles)
        ((dictFind st.meds (entity_key Val kvm.2)).getD (relFreshMed Val kvm.2))).2.2.2.1
      rw [hf]
      unfold pyOrEnt
      rw [he]
    · intro e he1 he2
      have hf := (applyMedRoles_fields Val (buildRoles Val rel.roles)
        ((dictFind st.meds (entity_key Val kvm.2)).getD (relFreshMed Val kvm.2))).2.2.2.1
      rw [hf]
      unfold pyOrEnt
      rw [he1, he2]
  · intro kve hexam
    have hspec := relStepLabs_spec Val st.labs (buildRoles Val rel.roles) kve hexam
    refine ⟨_, hspec, ?_, ?_, ?_, ?_⟩
    · intro e he
      have hf := (applyLabRoles_fields Val (buildRoles Val rel.roles)
        ((dictFind st.labs (entity_key Val kve.2)).getD (relFreshLab Val kve.2))).1
      rw [hf, he]
    · intro he
      have hf := (applyLabRoles_fields Val (buildRoles Val rel.roles)
        ((dictFind st.labs (entity_key Val kve.2)).getD (relFreshLab Val kve.2))).1
      rw [hf, he]
    · intro e he
      have hf := (applyLabRoles_fields Val (buildRoles Val rel.roles)
        ((dictFind st.labs (entity_key Val kve.2)).getD (relFreshLab Val kve.2))).2.1
      rw [hf, he]
    · intro e he
      have hf := (applyLabRoles_fields Val (buildRoles Val rel.roles)
        ((dictFind st.labs (entity_key Val kve.2)).getD (relFreshLab Val kve.2))).2.2.1
      rw [hf, he]

/-- Medication anchor entity for the C5 witness. -/
def c5med : HEntity Unit :=
  { text := "Metformin".data, category := "MEDICATION_NAME".data, offset := 0 }

/-- Dosage attribute entity for the C5 witness. -/
def c5dose : HEntity Unit :=
  { text := "500mg".data, category := "DOSAGE".data, offset := 10 }

/-- Route attribute entity for the C5 witness. -/
def c5route : HEntity Unit :=
  { text := "PO".data, category := "ROUTE".data, offset := 16 }

/-- The C5 witness relation: a medication anchor with a `DOSAGE` role of text
`500mg` and a `ROUTE` role of text `PO`. -/
def c5rel : HRelation Unit :=
  { roles := [
      { name := "Medication".data, entity := c5med },
      { name := "Dosage".data, entity := c5dose },
      { name := "Route".data, entity := c5route }] }

/-- Witness for C5: the spec's example — the anchor's record gets
`dosage="500mg"` and `route="PO"`. -/
theorem C5_relation_enrichment_witness :
    (dictFind (relStep Unit ({} : AzState Unit) c5rel).meds (entity_key Unit c5med)).map
      (fun m => (m.dosage, m.route))
      = some (some "500mg".data, some "PO".data) := by
  obtain ⟨m, hfind, hdos, -, -, -, -, -, hroute, -, -⟩ :=
    (C5_relation_enrichment Unit {} c5rel).1 ("MEDICATION".data, c5med) (by decide)
  rw [hfind]
  simp only [Option.map_some']
  rw [hdos c5dose (by decide), hroute c5route (by decide) (by decide) (by decide)]
  rfl

/-! ## Error handling of the adapter (claim C8) -/

/-- Skipping errored documents: processing a page list equals processing the
page list with errored documents removed. -/
theorem processPages_skip_errored (Val : Type) :
    ∀ (pages : List (DocResult Val)) (st : AzState Val),
      processPages Val st pages = processPages Val st (pages.filter (fun d => !d.is_error)) := by
  intro pages
  induction pages with
  | nil => intro st; rfl
  | cons d rest ih =>
    intro st
    by_cases he : d.is_error = true
    · have h1 : processDoc Val st d = st := by
        unfold processDoc
        rw [if_pos he]
      have h2 : (d :: rest).filter (fun d => !d.is_error)
          = rest.filter (fun d => !d.is_error) := by
        simp [List.filter_cons, he]
      unfold processPages
      rw [List.foldl_cons, h1, h2]
      exact ih st
    · have h2 : (d :: rest).filter (fun d => !d.is_error)
          = d :: rest.filter (fun d => !d.is_error) := by
        simp [List.filter_cons, he]
      unfold processPages
      rw [h2, List.foldl_cons, List.foldl_cons]
      exact ih (processDoc Val st d)

/-- An error accumulator absorbs the rest of the batching fold: once a call
has failed nothing else is processed. -/
theorem batchStep_foldl_error (Val : Type) (svc : AzureSvc Val) (e : Unit) :
    ∀ calls : List (List (Nat × PyStr)),
      calls.foldl (batchStep Val svc) (.error e) = .error e := by
  intro calls
  induction calls with
  | nil => rfl
  | cons p rest ih =>
    rw [List.foldl_cons]
    exact ih

/-- A hard failure of any submitted call — at any position in the call
sequence, also after earlier successful calls — makes the batching fold
end in that error.  (The error type is `Unit`, so `.error ()` is the raised
`RuntimeError`.) -/
theorem batchStep_foldl_mem_error (Val : Type) (svc : AzureSvc Val) :
    ∀ (calls : List (List (Nat × PyStr))) (acc : Except Unit (AzState Val))
      (p : List (Nat × PyStr)), p ∈ calls → svc p = .error () →
      calls.foldl (batchStep Val svc) acc = .error () := by
  intro calls
  induction calls with
  | nil => intro acc p hp _; cases hp
  | cons q rest ih =>
    intro acc p hp he
    rw [List.foldl_cons]
    rcases List.mem_cons.mp hp with h1 | h2
    · subst h1
      cases acc with
      | error e =>
        have h0 : batchStep Val svc (.error e) p = .error () := by cases e; rfl
        rw [h0]
        exact batchStep_foldl_error Val svc () rest
      | ok st =>
        have h0 : batchStep Val svc (.ok st) p = .error () := by
          unfold batchStep
          rw [he]
        rw [h0]
        exact batchStep_foldl_error Val svc () rest
    · exact ih (batchStep Val svc acc q) p h2 he

/-- A hard failure of any submitted call makes the whole adapter run fail,
with no partial results. -/
theorem processBatches_call_error (Val : Type) (svc : AzureSvc Val) (docs : List PyStr)
    (p : List (Nat × PyStr)) (hp : p ∈ azureCalls docs) (he : svc p = .error ()) :
    processBatches Val svc docs = .error () := by
  unfold processBatches
  exact batchStep_foldl_mem_error Val svc _ _ p hp he

/-! ## Claim C8 -/

/-- C8, confirmed: a per-document result flagged as errored by the service
is skipped while the remaining documents of its batch (and of later
batches) are still processed — processing a page list equals processing the
same list with errored documents removed — whereas a hard transport/auth
failure of ANY batch call, at any position in the submitted call sequence
(in particular one made after earlier batch calls succeeded), makes
`processBatches` and hence `analyze_with_azure` return the raised error to
the caller.  The `Except.error` result carries no state, so no partial
results survive — not even those accumulated from the earlier successful
calls. -/
theorem C8_per_document_vs_hard_failure (Val : Type) :
    (∀ (pages : List (DocResult Val)) (st : AzState Val),
        processPages Val st pages
          = processPages Val st (pages.filter (fun d => !d.is_error))) ∧
      (∀ (svc : AzureSvc Val) (docs : List PyStr) (p : List (Nat × PyStr)),
        p ∈ azureCalls docs → svc p = .error () →
          processBatches Val svc docs = .error ()) ∧
      (∀ (svc : AzureSvc Val) (text : PyStr) (p : List (Nat × PyStr)),
        p ∈ azureCalls ((chunk_text text 120000).getD []) → svc p = .error () →
          analyze_with_azure Val (some svc) text = .error ()) := by
  refine ⟨processPages_skip_errored Val,
    fun svc docs p hp he => processBatches_call_error Val svc docs p hp he, ?_⟩
  intro svc text p hp he
  show analyzeWithClient Val svc text = .error ()
  unfold analyzeWithClient
  rw [processBatches_call_error Val svc _ p hp he]

/-- The witness service for C8: the first (25-document) call succeeds, any
other call fails hard. -/
def c8svc : AzureSvc Unit := fun payload =>
  if payload.length == 25 then .ok [] else .error ()

/-- Witness for C8: an errored document leaves the state untouched, and on
26 one-character chunks the first batch call succeeds while the second
(one-document) call fails hard — the adapter returns the error, discarding
the first call's results. -/
theorem C8_per_document_vs_hard_failure_witness :
    processPages Unit {} [({ is_error := true } : DocResult Unit)] = ({} : AzState Unit) ∧
      c8svc (List.enumFrom 0 (List.replicate 25 ("a".data : PyStr))) = .ok [] ∧
      c8svc [(25, ("a".data : PyStr))] = .error () ∧
      processBatches Unit c8svc (List.replicate 26 "a".data) = .error () := by
  refine ⟨?_, rfl, rfl, ?_⟩
  · have h := (C8_per_document_vs_hard_failure Unit).1 [{ is_error := true }] {}
    rw [h]
    rfl
  · exact (C8_per_document_vs_hard_failure Unit).2.1 c8svc (List.replicate 26 "a".data)
      [(25, "a".data)] (by decide) rfl

/-! ## Batch boundaries (claim C7) -/

/-- Consecutive groups of 25 (the reference grouping the batching loop
produces when no payload filtering occurs), fuel-driven like the loop. -/
def groups25Aux {α : Type} : Nat → List α → List (List α)
  | 0, _ => []
  | fuel + 1, l => if l.isEmpty then [] else l.take 25 :: groups25Aux fuel (l.drop 25)

/-- All consecutive groups of 25 elements of a list. -/
def groups25 {α : Type} (l : List α) : List (List α) :=
  groups25Aux (l.length + 1) l

/-- `groups25Aux` on the empty list. -/
theorem groups25Aux_nil {α : Type} : ∀ fuel, groups25Aux fuel ([] : List α) = [] := by
  intro fuel
  cases fuel with
  | zero => rfl
  | succ n => rfl

/-- One step of `groups25Aux` on a nonempty list. -/
theorem groups25Aux_succ {α : Type} (n : Nat) (l : List α) (hne : l.isEmpty = false) :
    groups25Aux (n + 1) l = l.take 25 :: groups25Aux n (l.drop 25) := by
  conv_lhs => rw [groups25Aux]
  rw [if_neg (by simp [hne])]

/-- `enumFrom` preserves length. -/
theorem enumFromL_length {α : Type} : ∀ (l : List α) (i : Nat),
    (List.enumFrom i l).length = l.length := by
  intro l
  induction l with
  | nil => intro i; rfl
  | cons a t ih => intro i; simp [List.enumFrom, ih]

/-- `enumFrom` commutes with `take`. -/
theorem enumFromL_take {α : Type} : ∀ (l : List α) (n i : Nat),
    List.enumFrom i (l.take n) = (List.enumFrom i l).take n := by
  intro l
  induction l with
  | nil => intro n i; simp
  | cons a t ih =>
    intro n i
    cases n with
    | zero => rfl
    | succ m =>
      simp only [List.take_succ_cons, List.enumFrom]
      rw [ih m (i + 1)]

/-- `enumFrom` commutes with `drop` (shifting the start index). -/
theorem enumFromL_drop {α : Type} : ∀ (l : List α) (n i : Nat),
    List.enumFrom (i + n) (l.drop n) = (List.enumFrom i l).drop n := by
  intro l
  induction l with
  | nil => intro n i; simp
  | cons a t ih =>
    intro n i
    cases n with
    | zero => rfl
    | succ m =>
      simp only [List.drop_succ_cons, List.enumFrom]
      rw [← ih m (i + 1)]
      congr 1
      omega

/-- The payload of an `enumFrom` member is a member of the underlying list. -/
theorem enumFromL_snd_mem {α : Type} : ∀ (l : List α) (i : Nat) (p : Nat × α),
    p ∈ List.enumFrom i l → p.2 ∈ l := by
  intro l
  induction l with
  | nil => intro i p h; cases h
  | cons a t ih =>
    intro i p h
    rcases List.mem_cons.mp h with h1 | h2
    · subst h1; exact List.mem_cons_self a t
    · exact List.mem_cons_of_mem a (ih (i + 1) p h2)

/-- With no whitespace-only chunk, the batching loop submits exactly the
consecutive 25-groups of the enumerated chunk list. -/
theorem azureCallsAux_eq_groups :
    ∀ (fuel i : Nat) (docs : List PyStr), (∀ d ∈ docs, payloadOk d = true) →
      azureCallsAux fuel i docs = groups25Aux fuel (List.enumFrom i docs) := by
  intro fuel
  induction fuel with
  | zero => intro i docs _; rfl
  | succ n ih =>
    intro i docs hall
    cases docs with
    | nil => rfl
    | cons d0 rest0 =>
      have hne : (d0 :: rest0).isEmpty = false := rfl
      have hneE : (List.enumFrom i (d0 :: rest0)).isEmpty = false := rfl
      rw [groups25Aux_succ n _ hneE]
      unfold azureCallsAux
      rw [if_neg (by simp)]
      have hpl : (List.enumFrom i ((d0 :: rest0).take 25)).filter (fun jt => payloadOk jt.2)
          = List.enumFrom i ((d0 :: rest0).take 25) := by
        rw [List.filter_eq_self]
        intro p hp
        exact hall p.2 (List.mem_of_mem_take (enumFromL_snd_mem _ i p hp))
      rw [hpl]
      have hplne : (List.enumFrom i ((d0 :: rest0).take 25)).isEmpty = false := rfl
      rw [if_neg (by simp [hplne])]
      rw [enumFromL_take]
      rw [ih (i + 25) ((d0 :: rest0).drop 25)
        (fun d hd => hall d (List.mem_of_mem_drop hd))]
      rw [enumFromL_drop]

/-- Every group except the last has exactly 25 elements. -/
theorem groups25Aux_dropLast {α : Type} :
    ∀ (fuel : Nat) (l : List α), l.length < fuel →
      ∀ g ∈ (groups25Aux fuel l).dropLast, g.length = 25 := by
  intro fuel
  induction fuel with
  | zero => intro l h g hg; omega
  | succ n ih =>
    intro l h g hg
    cases l with
    | nil => rw [groups25Aux_nil] at hg; cases hg
    | cons a t =>
      rw [groups25Aux_succ n (a :: t) rfl] at hg
      cases hrec : groups25Aux n ((a :: t).drop 25) with
      | nil =>
        rw [hrec] at hg
        cases hg
      | cons b rest =>
        rw [hrec] at hg
        have hsplit : ((a :: t).take 25 :: b :: rest).dropLast
            = (a :: t).take 25 :: (b :: rest).dropLast := rfl
        rw [hsplit] at hg
        have hdne : (a :: t).drop 25 ≠ [] := by
          intro hd
          rw [hd, groups25Aux_nil] at hrec
          cases hrec
        have hlen25 : 25 < (a :: t).length := by
          by_contra hcon
          exact hdne (List.drop_eq_nil_of_le (by omega))
        rcases List.mem_cons.mp hg with h1 | h2
        · subst h1
          simp only [List.length_take]
          omega
        · rw [← hrec] at h2
          refine ih ((a :: t).drop 25) ?_ g h2
          have := List.length_drop 25 (a :: t)
          simp only [List.length_cons] at h hlen25 this ⊢
          omega

/-- Every group is nonempty and of at most 25 elements. -/
theorem groups25Aux_sizes {α : Type} :
    ∀ (fuel : Nat) (l : List α), l.length < fuel →
      ∀ g ∈ groups25Aux fuel l, 0 < g.length ∧ g.length ≤ 25 := by
  intro fuel
  induction fuel with
  | zero => intro l h g hg; omega
  | succ n ih =>
    intro l h g hg
    cases l with
    | nil => rw [groups25Aux_nil] at hg; cases hg
    | cons a t =>
      rw [groups25Aux_succ n (a :: t) rfl] at hg
      rcases List.mem_cons.mp hg with h1 | h2
      · subst h1
        simp only [List.length_take, List.length_cons]
        omega
      · refine ih ((a :: t).drop 25) ?_ g h2
        have := List.length_drop 25 (a :: t)
        simp only [List.length_cons] at h this ⊢
        omega

/-- `head?` of a 25-element prefix. -/
theorem headq_take25 {α : Type} (l : List α) : (l.take 25).head? = l.head? := by
  cases l <;> rfl

/-- `head?` after `drop` is positional lookup. -/
theorem headq_drop {α : Type} : ∀ (l : List α) (n : Nat), (l.drop n).head? = l[n]? := by
  intro l
  induction l with
  | nil => intro n; simp
  | cons a t ih =>
    intro n
    cases n with
    | zero => simp
    | succ m =>
      simp only [List.drop_succ_cons, List.getElem?_cons_succ]
      exact ih m

/-- The second group starts with element 25 of the list. -/
theorem groups25_second {α : Type} (l : List α) (h : 25 < l.length) :
    (groups25 l)[1]?.bind List.head? = l[25]? := by
  have hne : l.isEmpty = false := by
    cases l
    · simp at h
    · rfl
  have hlen2 : (l.drop 25).length = l.length - 25 := List.length_drop 25 l
  have hne2 : (l.drop 25).isEmpty = false := by
    cases hd : l.drop 25
    · rw [hd] at hlen2
      simp at hlen2
      omega
    · rfl
  obtain ⟨m, hm⟩ : ∃ m, l.length = m + 1 := ⟨l.length - 1, by omega⟩
  unfold groups25
  rw [groups25Aux_succ _ _ hne, hm, groups25Aux_succ _ _ hne2]
  simp only [List.getElem?_cons_succ, List.getElem?_cons_zero, Option.some_bind]
  rw [headq_take25, headq_drop]

/-! ## Claim C7 -/

/-- C7, counterexample: for a chunk list of 26 nonempty chunks the adapter
makes two calls, and the second call submits exactly one document — not 25.
(The claim's "every remote service call submits exactly 25 documents" fails
for the final short batch; the 26th chunk does start a new batch.) -/
theorem C7_batch_counterexample :
    (List.replicate 26 ("a".data : PyStr)).length = 26 ∧
      (azureCalls (List.replicate 26 "a".data)).map List.length = [25, 1] := by
  constructor
  · rfl
  · rfl

/-- C7, amended: whenever the chunk list has more than 25 entries, none of
them empty or whitespace-only, the adapter's calls are exactly the
consecutive groups of 25 enumerated chunks; every call except the last
submits exactly 25 documents, every call submits between 1 and 25, and the
26th chunk (index 25) is the first document of the second call. -/
theorem C7_batch_boundary (docs : List PyStr) (hlen : 25 < docs.length)
    (hall : ∀ d ∈ docs, payloadOk d = true) :
    azureCalls docs = groups25 (List.enumFrom 0 docs) ∧
      (∀ g ∈ (azureCalls docs).dropLast, g.length = 25) ∧
      (∀ g ∈ azureCalls docs, 0 < g.length ∧ g.length ≤ 25) ∧
      (azureCalls docs)[1]?.bind List.head? = (List.enumFrom 0 docs)[25]? := by
  have hL : (List.enumFrom 0 docs).length = docs.length := enumFromL_length docs 0
  have heq : azureCalls docs = groups25 (List.enumFrom 0 docs) := by
    unfold azureCalls groups25
    rw [hL]
    exact azureCallsAux_eq_groups (docs.length + 1) 0 docs hall
  refine ⟨heq, ?_, ?_, ?_⟩
  · intro g hg
    rw [heq] at hg
    exact groups25Aux_dropLast _ _ (by omega) g hg
  · intro g hg
    rw [heq] at hg
    exact groups25Aux_sizes _ _ (by omega) g hg
  · rw [heq]
    exact groups25_second _ (by omega)

/-- Witness for C7 (amended): 26 one-character chunks. -/
theorem C7_batch_boundary_witness :
    azureCalls (List.replicate 26 ("a".data : PyStr))
      = groups25 (List.enumFrom 0 (List.replicate 26 "a".data)) := by
  exact (C7_batch_boundary (List.replicate 26 "a".data) (by simp)
    (fun d hd => by rw [List.eq_of_mem_replicate hd]; rfl)).1

/-! ## Source uniformity (claim C9) -/

/-- Preservation of a predicate along a left fold. -/
theorem foldl_pres {σ α : Type} (P : σ → Prop) (f : σ → α → σ)
    (hstep : ∀ s a, P s → P (f s a)) :
    ∀ (l : List α) (s : σ), P s → P (l.foldl f s) := by
  intro l
  induction l with
  | nil => intro s h; exact h
  | cons a rest ih => intro s h; exact ih _ (hstep s a h)

/-- A member of `dictSetdefault d k v` is the default binding or an old
member. -/
theorem mem_dictSetdefault {κ β : Type} [DecidableEq κ] (d : List (κ × β)) (k : κ) (v : β) :
    ∀ kv ∈ dictSetdefault d k v, kv = (k, v) ∨ kv ∈ d := by
  induction d with
  | nil => intro kv h; left; simpa [dictSetdefault] using h
  | cons hd tl ih =>
    intro kv h
    unfold dictSetdefault at h
    by_cases hk : hd.1 = k
    · rw [if_pos hk] at h
      right
      exact h
    · rw [if_neg hk] at h
      rcases List.mem_cons.mp h with h1 | h2
      · right; rw [h1]; exact List.mem_cons_self hd tl
      · rcases ih kv h2 with h3 | h4
        · left; exact h3
        · right; exact List.mem_cons_of_mem hd h4

/-- All records of an adapter state carry the `azure` source tag. -/
def stAzure (Val : Type) (st : AzState Val) : Prop :=
  (∀ kv ∈ st.diagnoses, kv.2.source = azureTag) ∧
    (∀ kv ∈ st.symptoms, kv.2.source = azureTag) ∧
    (∀ kv ∈ st.meds, kv.2.source = azureTag) ∧
    (∀ kv ∈ st.labs, kv.2.source = azureTag)

/-- The entity pass only stores `azure`-tagged records. -/
theorem stAzure_entStep (Val : Type) (st : AzState Val) (e : HEntity Val)
    (h : stAzure Val st) : stAzure Val (entStep Val st e) := by
  obtain ⟨h1, h2, h3, h4⟩ := h
  unfold entStep
  by_cases c1 : pyUpper e.category = catDiagnosis
  · rw [if_pos c1]
    refine ⟨?_, h2, h3, h4⟩
    intro kv hkv
    rcases mem_dictInsert _ _ _ kv hkv with hnew | hold
    · rw [hnew]; rfl
    · exact h1 kv hold
  · rw [if_neg c1]
    by_cases c2 : pyUpper e.category = catSymptom
    · rw [if_pos c2]
      refine ⟨h1, ?_, h3, h4⟩
      intro kv hkv
      rcases mem_dictInsert _ _ _ kv hkv with hnew | hold
      · rw [hnew]; rfl
      · exact h2 kv hold
    · rw [if_neg c2]
      by_cases c3 : pyUpper e.category = catMedication
      · rw [if_pos c3]
        refine ⟨h1, h2, ?_, h4⟩
        intro kv hkv
        rcases mem_dictSetdefault _ _ _ kv hkv with hnew | hold
        · rw [hnew]; rfl
        · exact h3 kv hold
      · rw [if_neg c3]
        by_cases c4 : pyUpper e.category = catExamination
        · rw [if_pos c4]
          refine ⟨h1, h2, h3, ?_⟩
          intro kv hkv
          rcases mem_dictSetdefault _ _ _ kv hkv with hnew | hold
          · rw [hnew]; rfl
          · exact h4 kv hold
        · rw [if_neg c4]
          exact ⟨h1, h2, h3, h4⟩

/-- The medication relation branch only stores `azure`-tagged records. -/
theorem relStepMeds_sources (Val : Type) (meds : List (EntityKey × Medication Val))
    (roles : List (PyStr × HEntity Val)) (h : ∀ kv ∈ meds, kv.2.source = azureTag) :
    ∀ kv ∈ relStepMeds Val meds roles, kv.2.source = azureTag := by
  unfold relStepMeds
  cases hf : roles.find? (fun kv => hasSub medNeedle kv.1) with
  | none => exact h
  | some kv0 =>
    intro kv hkv
    rcases mem_dictInsert _ _ _ kv hkv with hnew | hold
    · rw [hnew]
      show (applyMedRoles Val roles _).source = azureTag
      have hs := (applyMedRoles_fields Val roles
        ((dictFind (dictSetdefault meds (entity_key Val kv0.2) (relFreshMed Val kv0.2))
            (entity_key Val kv0.2)).getD (relFreshMed Val kv0.2))).2.2.2.2.2
      rw [hs, dictFind_dictSetdefault_self]
      cases hfm : dictFind meds (entity_key Val kv0.2) with
      | none => rfl
      | some m0 =>
        have := h _ (dictFind_mem _ _ _ hfm)
        simpa using this
    · rcases mem_dictSetdefault _ _ _ kv hold with hnew2 | hold2
      · rw [hnew2]; rfl
      · exact h kv hold2

/-- The lab relation branch only stores `azure`-tagged records. -/
theorem relStepLabs_sources (Val : Type) (labs : List (EntityKey × Lab Val))
    (roles : List (PyStr × HEntity Val)) (h : ∀ kv ∈ labs, kv.2.source = azureTag) :
    ∀ kv ∈ relStepLabs Val labs roles, kv.2.source = azureTag := by
  unfold relStepLabs
  cases hf : roles.find? (fun kv => hasSub examNeedle kv.1) with
  | none => exact h
  | some kv0 =>
    intro kv hkv
    rcases mem_dictInsert _ _ _ kv hkv with hnew | hold
    · rw [hnew]
      show (applyLabRoles Val roles _).source = azureTag
      have hs := (applyLabRoles_fields Val roles
        ((dictFind (dictSetdefault labs (entity_key Val kv0.2) (relFreshLab Val kv0.2))
            (entity_key Val kv0.2)).getD (relFreshLab Val kv0.2))).2.2.2.2
      rw [hs, dictFind_dictSetdefault_self]
      cases hfm : dictFind labs (entity_key Val kv0.2) with
      | none => rfl
      | some m0 =>
        have := h _ (dictFind_mem _ _ _ hfm)
        simpa using this
    · rcases mem_dictSetdefault _ _ _ kv hold with hnew2 | hold2
      · rw [hnew2]; rfl
      · exact h kv hold2

/-- The relation pass only stores `azure`-tagged records. -/
theorem stAzure_relStep (Val : Type) (st : AzState Val) (rel : HRelation Val)
    (h : stAzure Val st) : stAzure Val (relStep Val st rel) := by
  obtain ⟨h1, h2, h3, h4⟩ := h
  exact ⟨h1, h2, relStepMeds_sources Val st.meds _ h3, relStepLabs_sources Val st.labs _ h4⟩

/-- Document processing only stores `azure`-tagged records. -/
theorem stAzure_processDoc (Val : Type) (st : AzState Val) (doc : DocResult Val)
    (h : stAzure Val st) : stAzure Val (processDoc Val st doc) := by
  unfold processDoc
  by_cases he : doc.is_error = true
  · rw [if_pos he]; exact h
  · rw [if_neg he]
    refine foldl_pres (stAzure Val) (relStep Val) (stAzure_relStep Val) _ _ ?_
    exact foldl_pres (stAzure Val) (entStep Val) (stAzure_entStep Val) _ _ h

/-- Page processing only stores `azure`-tagged records. -/
theorem stAzure_processPages (Val : Type) (st : AzState Val) (pages : List (DocResult Val))
    (h : stAzure Val st) : stAzure Val (processPages Val st pages) :=
  foldl_pres (stAzure Val) (processDoc Val) (stAzure_processDoc Val) pages st h

/-- A successful batching run yields an `azure`-tagged state. -/
theorem processBatches_stAzure (Val : Type) (svc : AzureSvc Val) (docs : List PyStr)
    (st : AzState Val) (h : processBatches Val svc docs = .ok st) : stAzure Val st := by
  unfold processBatches at h
  have hgen : ∀ (calls : List (List (Nat × PyStr))) (acc : Except Unit (AzState Val)),
      (∀ st0, acc = .ok st0 → stAzure Val st0) →
      calls.foldl (batchStep Val svc) acc = .ok st → stAzure Val st := by
    intro calls
    induction calls with
    | nil => intro acc hacc hfold; exact hacc st hfold
    | cons p rest ih =>
      intro acc hacc hfold
      rw [List.foldl_cons] at hfold
      refine ih _ ?_ hfold
      intro st0 h0
      unfold batchStep at h0
      cases acc with
      | error e => cases h0
      | ok st1 =>
        cases hsvc : svc p with
        | error e => rw [hsvc] at h0; cases h0
        | ok pages =>
          rw [hsvc] at h0
          cases h0
          exact stAzure_processPages Val st1 pages (hacc st1 rfl)
  refine hgen _ _ ?_ h
  intro st0 h0
  cases h0
  refine ⟨?_, ?_, ?_, ?_⟩ <;> intro kv hkv <;> cases hkv

/-- The medication loop of the fallback stores only `rule_based` records. -/
theorem ruleMeds_sources (Val : Type) (text : PyStr) :
    ∀ kv ∈ ruleMeds Val text, kv.2.source = ruleTag := by
  unfold ruleMeds ruleMedsFold
  refine foldl_pres (fun meds : List (PyStr × Medication Val) => ∀ kv ∈ meds, kv.2.source = ruleTag) (ruleMedStep Val)
    ?_ _ [] (fun kv hkv => absurd hkv (List.not_mem_nil kv))
  intro meds caps h kv hkv
  rcases mem_dictInsert _ _ _ kv hkv with hnew | hold
  · rw [hnew]
    show (ruleMedUpdate Val caps (ruleMedEntry Val meds caps)).source = ruleTag
    have hs : (ruleMedUpdate Val caps (ruleMedEntry Val meds caps)).source
        = (ruleMedEntry Val meds caps).source := rfl
    rw [hs]
    unfold ruleMedEntry
    cases hf : dictFind meds (ruleMatchName caps) with
    | none => rfl
    | some e => exact h _ (dictFind_mem _ _ _ hf)
  · exact h kv hold

/-- Inserting a diagnosis phrase stores only `rule_based` records. -/
theorem ruleDiagInsert_sources (Val : Type) (d : List (PyStr × Diagnosis Val)) (piece : PyStr)
    (h : ∀ kv ∈ d, kv.2.source = ruleTag) :
    ∀ kv ∈ ruleDiagInsert Val d piece, kv.2.source = ruleTag := by
  unfold ruleDiagInsert
  by_cases hw : (pyStripChars stripSet (pyStrip piece)).isEmpty = true
  · rw [if_pos hw]; exact h
  · rw [if_neg hw]
    by_cases hk :
        dictHasKey d (pyLower (pyStripChars stripSet (pyStrip piece))) = true
    · rw [if_pos hk]; exact h
    · rw [if_neg hk]
      intro kv hkv
      rcases List.mem_append.mp hkv with h1 | h2
      · exact h kv h1
      · rw [List.mem_singleton.mp h2]

/-- The diagnosis dict of the fallback stores only `rule_based` records. -/
theorem ruleDiags_sources (Val : Type) (text : PyStr) :
    ∀ kv ∈ ruleDiags Val text, kv.2.source = ruleTag := by
  unfold ruleDiags
  have hheaders : ∀ kv ∈ ruleDiagHeaders Val text [], kv.2.source = ruleTag := by
    unfold ruleDiagHeaders
    refine foldl_pres (fun d : List (PyStr × Diagnosis Val) => ∀ kv ∈ d, kv.2.source = ruleTag)
      _ ?_ _ [] (fun kv hkv => absurd hkv (List.not_mem_nil kv))
    intro d hdr hd
    refine foldl_pres (fun d : List (PyStr × Diagnosis Val) => ∀ kv ∈ d, kv.2.source = ruleTag)
      _ ?_ _ d hd
    intro d1 s hd1
    refine foldl_pres (fun d : List (PyStr × Diagnosis Val) => ∀ kv ∈ d, kv.2.source = ruleTag)
      (ruleDiagInsert Val) ?_ _ d1 hd1
    intro d2 piece hd2
    exact ruleDiagInsert_sources Val d2 piece hd2
  unfold ruleDiagWords
  refine foldl_pres (fun d : List (PyStr × Diagnosis Val) => ∀ kv ∈ d, kv.2.source = ruleTag)
    _ ?_ _ _ hheaders
  intro d w hd
  refine foldl_pres (fun d : List (PyStr × Diagnosis Val) => ∀ kv ∈ d, kv.2.source = ruleTag)
    _ ?_ _ d hd
  intro d1 m hd1
  by_cases hk : dictHasKey d1 (pyLower w.data) = true
  · rw [if_pos hk]; exact hd1
  · rw [if_neg hk]
    intro kv hkv
    rcases List.mem_append.mp hkv with h1 | h2
    · exact hd1 kv h1
    · rw [List.mem_singleton.mp h2]

/-- The symptom list of the fallback stores only `rule_based` records. -/
theorem ruleSymptoms_sources (Val : Type) (text : PyStr) :
    ∀ s2 ∈ ruleSymptoms Val text, s2.source = ruleTag := by
  unfold ruleSymptoms
  refine foldl_pres (fun syms : List (Symptom Val) => ∀ s2 ∈ syms, s2.source = ruleTag)
    _ ?_ _ [] (fun s2 hs => absurd hs (List.not_mem_nil s2))
  intro syms trig hsy
  refine foldl_pres (fun syms : List (Symptom Val) => ∀ s2 ∈ syms, s2.source = ruleTag)
    _ ?_ _ syms hsy
  intro sy1 m hs1
  refine foldl_pres (fun syms : List (Symptom Val) => ∀ s2 ∈ syms, s2.source = ruleTag)
    _ ?_ _ sy1 hs1
  intro sy2 piece hs2
  by_cases hc : (pyStripChars stripSet (pyStrip piece)).isEmpty = true
  · rw [if_pos hc]; exact hs2
  · rw [if_neg hc]
    intro s2 hs
    rcases List.mem_append.mp hs with h1 | h2
    · exact hs2 s2 h1
    · rw [List.mem_singleton.mp h2]

/-- The lab list of the fallback stores only `rule_based` records. -/
theorem ruleLabs_sources (Val : Type) (text : PyStr) :
    ∀ l2 ∈ ruleLabs Val text, l2.source = ruleTag := by
  unfold ruleLabs
  refine foldl_pres (fun labs : List (Lab Val) => ∀ l2 ∈ labs, l2.source = ruleTag)
    _ ?_ _ [] (fun l2 hl => absurd hl (List.not_mem_nil l2))
  intro labs m hlb l2 hl
  rcases List.mem_append.mp hl with h1 | h2
  · exact hlb l2 h1
  · rw [List.mem_singleton.mp h2]

/-! ## Claim C9 -/

/-- C9, confirmed: every envelope returned by `extract_health_from_text` is
the five-field structure `{source, diagnoses, medications, symptoms, labs}`
(the `Envelope` type, one field per key of the Python dict literal), its
`source` is `"azure"` or `"rule_based"`, and every record in all four
collections carries exactly the envelope's source tag — never a mix within
one invocation. -/
theorem C9_envelope_source_uniform (Val : Type) (client : Option (AzureSvc Val))
    (text : PyStr) :
    ((extract_health_from_text Val client text).source = azureTag ∨
        (extract_health_from_text Val client text).source = ruleTag) ∧
      (∀ d ∈ (extract_health_from_text Val client text).diagnoses,
        d.source = (extract_health_from_text Val client text).source) ∧
      (∀ m ∈ (extract_health_from_text Val client text).medications,
        m.source = (extract_health_from_text Val client text).source) ∧
      (∀ s2 ∈ (extract_health_from_text Val client text).symptoms,
        s2.source = (extract_health_from_text Val client text).source) ∧
      (∀ l2 ∈ (extract_health_from_text Val client text).labs,
        l2.source = (extract_health_from_text Val client text).source) := by
  unfold extract_health_from_text
  cases ha : analyze_with_azure Val client text with
  | error e =>
    refine ⟨Or.inr rfl, ?_, ?_, ?_, ?_⟩
    · intro d hd
      unfold extract_rule_based at hd ⊢
      rcases List.mem_map.mp hd with ⟨kv, hkv, hdd⟩
      rw [← hdd]
      exact ruleDiags_sources Val text kv hkv
    · intro m hm
      unfold extract_rule_based at hm ⊢
      rcases List.mem_map.mp hm with ⟨kv, hkv, hmm⟩
      rw [← hmm]
      exact ruleMeds_sources Val text kv hkv
    · intro s2 hs
      unfold extract_rule_based at hs ⊢
      exact ruleSymptoms_sources Val text s2 hs
    · intro l2 hl
      unfold extract_rule_based at hl ⊢
      exact ruleLabs_sources Val text l2 hl
  | ok env =>
    have henv : ∃ st, stAzure Val st ∧ env = mkAzureEnvelope Val st := by
      cases client with
      | none => cases ha
      | some svc =>
        have ha2 : analyzeWithClient Val svc text = Except.ok env := ha
        unfold analyzeWithClient at ha2
        cases hb : processBatches Val svc ((chunk_text text 120000).getD []) with
        | error e => rw [hb] at ha2; cases ha2
        | ok st =>
          rw [hb] at ha2
          exact ⟨st, processBatches_stAzure Val svc _ st hb, (Except.ok.inj ha2).symm⟩
    obtain ⟨st, hst, rfl⟩ := henv
    obtain ⟨hs1, hs2, hs3, hs4⟩ := hst
    refine ⟨Or.inl rfl, ?_, ?_, ?_, ?_⟩
    · intro d hd
      rcases List.mem_map.mp hd with ⟨kv, hkv, hdd⟩
      rw [← hdd]
      exact hs1 kv hkv
    · intro m hm
      rcases List.mem_map.mp hm with ⟨kv, hkv, hmm⟩
      rw [← hmm]
      exact hs3 kv hkv
    · intro s2 hs
      rcases List.mem_map.mp hs with ⟨kv, hkv, hss⟩
      rw [← hss]
      exact hs2 kv hkv
    · intro l2 hl
      rcases List.mem_map.mp hl with ⟨kv, hkv, hll⟩
      rw [← hll]
      exact hs4 kv hkv

/-! ## Claim C1 -/

/-- The example input of claim C1. -/
def c1Text : PyStr := "Diagnosis: Hypertension, Diabetes\nLisinopril 10mg PO daily".data

/-- C1, settled as a code bug: with no remote service configured, on input
`"Diagnosis: Hypertension, Diabetes\nLisinopril 10mg PO daily"` the
diagnosis half of the claim holds (case-folded keys `hypertension` and
`diabetes`), but the medication half does not: the greedy name class
`[A-Za-z0-9- ]` of `med_line_re` (it admits digits and spaces) swallows
`"10mg PO"`, so the code produces the single record
`name="Lisinopril 10mg PO"` with `dosage=None`, `route=None`,
`frequency=None` instead of `name="Lisinopril"`, `dosage="10mg"`,
`route="PO"`, `frequency="daily"`.  This theorem evaluates the embedded
code at the failing input. -/
theorem C1_lisinopril_example_eval :
    (extract_health_from_text Unit none c1Text).source = ruleTag ∧
      (extract_health_from_text Unit none c1Text).diagnoses.map (fun d => pyLower d.text)
        = ["hypertension".data, "diabetes".data] ∧
      (extract_health_from_text Unit none c1Text).medications
        = [{ name := "Lisinopril 10mg PO".data, source := ruleTag }] := by
  refine ⟨rfl, ?_, ?_⟩ <;> rfl

/-! ## Claim C3 -/

/-- C3, confirmed: with no remote credentials configured
(`get_azure_client()` returns `None`, modelled as `client = none`),
`extract_health_from_text` falls back to the rule-based extractor — a total
function, so it never raises — and the returned envelope carries
`source == "rule_based"`. -/
theorem C3_fallback_guarantee (Val : Type) (text : PyStr) :
    extract_health_from_text Val none text = extract_rule_based Val text ∧
      (extract_health_from_text Val none text).source = ruleTag :=
  ⟨rfl, rfl⟩

end AzureHealth
